import Mathlib

/-!
Shallow embedding of the social-graph core of
`Source/Services/Social/Manager/social_graph.cpp` (xbox-live-api), together
with theorems about its event pipeline.

Modelling conventions:
* `uint32_t` arithmetic (the `refCount` field of `xbox_social_user_context`)
  is `Nat` arithmetic taken modulo `2^32` exactly where the C++ wraps.
* `xsapi_internal_unordered_map(uint64_t, xbox_social_user_context)` is an
  association list; `operator[]` is insert-or-update with a value-initialised
  default, `find` is first-match lookup, `erase` removes the key.
* Raw buffer slots are abstracted to `freeDataCount`, the length of the
  `freeData` queue of slot pointers (slot addresses carry no information
  relevant to the modelled behaviour).
* Externally visible calls (task-completion-event resolutions, call-buffer
  timer fires, presence subscribe/unsubscribe requests) are recorded in ghost
  log fields of the state so that theorems can speak about them.
-/

namespace XsapiSocialManager

/-- Xbox user id (`uint64_t` in the source; never the target of wrapping
arithmetic, hence plain `Nat`). -/
abbrev XUID := Nat

/-- Modulus of `uint32_t` arithmetic, used for `refCount`. -/
def UINT32_MOD : Nat := 4294967296

/-- Translates `social_graph::NUM_EVENTS_PER_FRAME = 5`. -/
def NUM_EVENTS_PER_FRAME : Nat := 5

/-- Translates `user_buffers_holder::EXTRA_USER_FREE_SPACE = 5`. -/
def EXTRA_USER_FREE_SPACE : Nat := 5

/-- Decrement of a `uint32_t` value: `--x` wraps `0` to `2^32 - 1`. -/
def decU32 (n : Nat) : Nat := (n + (UINT32_MOD - 1)) % UINT32_MOD

/-- Increment of a `uint32_t` value: `++x` wraps `2^32 - 1` to `0`. -/
def incU32 (n : Nat) : Nat := (n + 1) % UINT32_MOD

/-- Modelled from the spec: `social_manager_presence_record` (declared in
`social_manager.h`, outside the provided source). It carries the user id
(`_Xbox_user_id()`), an overall user state, the per-title records returned by
`presence_title_records()` (only their count and identity matter to the
modelled control flow) and the per-device logged-on flags written by
`_Update_device`. -/
structure social_manager_presence_record where
  xboxUserId : XUID := 0
  userState : Nat := 0
  presenceTitleRecords : List Nat := []
  deviceFlags : List (Nat × Bool) := []
deriving DecidableEq

/-- Modelled from the spec: `_Update_device(deviceType, isLoggedOn)` updates
the device flag inline in the stored presence record. -/
def social_manager_presence_record.updateDevice
    (r : social_manager_presence_record) (deviceType : Nat) (loggedOn : Bool) :
    social_manager_presence_record :=
  if (r.deviceFlags.lookup deviceType).isSome then
    { r with deviceFlags :=
        r.deviceFlags.map (fun p => if p.1 = deviceType then (deviceType, loggedOn) else p) }
  else
    { r with deviceFlags := r.deviceFlags ++ [(deviceType, loggedOn)] }

/-- Modelled from the spec: `_Remove_title(titleId)` removes the title from
the user's presence record. -/
def social_manager_presence_record.removeTitle
    (r : social_manager_presence_record) (titleId : Nat) :
    social_manager_presence_record :=
  { r with presenceTitleRecords := r.presenceTitleRecords.filter (fun t => t != titleId) }

/-- Modelled from the spec: `_Compare` of two presence records returns whether
they differ (a difference triggers the overwrite-and-emit path). -/
def social_manager_presence_record.compareRecord
    (a b : social_manager_presence_record) : Bool :=
  decide (a ≠ b)

/-- Modelled from the spec: `xbox_social_user` (declared outside the provided
source). `profileData` abstracts the profile fields (display name, gamertag,
avatar URL); the three relationship flags and the embedded presence record are
kept explicitly because the translated control flow reads them. -/
structure xbox_social_user where
  xboxUserId : XUID := 0
  profileData : Nat := 0
  isFollowedByCaller : Bool := false
  isFollowingUser : Bool := false
  isFavorite : Bool := false
  presenceRecord : social_manager_presence_record := {}
deriving DecidableEq

/-- Modelled from the spec: `xbox_social_user::_Compare(old, new)` returns the
`change_list_enum` bit set as a triple
(presence delta, profile delta, social-relationship delta). -/
def xbox_social_user.compareUser (a b : xbox_social_user) : Bool × Bool × Bool :=
  (decide (a.presenceRecord ≠ b.presenceRecord),
   decide (a.profileData ≠ b.profileData),
   decide ((a.isFollowedByCaller, a.isFollowingUser, a.isFavorite) ≠
           (b.isFollowedByCaller, b.isFollowingUser, b.isFavorite)))

/-- Translates `xbox_social_user_context`: the value type of the user graph
map. `socialUser` models the raw slot pointer (`none` = `nullptr`), `refCount`
the `uint32_t` reference count. `operator[]` value-initialises missing
entries to `⟨none, 0⟩`. -/
structure xbox_social_user_context where
  socialUser : Option xbox_social_user := none
  refCount : Nat := 0
deriving DecidableEq

/-- The user graph map `xsapi_internal_unordered_map(uint64_t,
xbox_social_user_context)`, as an association list. -/
abbrev SocialUserGraph := List (XUID × xbox_social_user_context)

/-- First-match association-list lookup (`unordered_map::find`). -/
def assocFind {α : Type} : List (XUID × α) → XUID → Option α
  | [], _ => none
  | (k, v) :: rest, k' => if k = k' then some v else assocFind rest k'

/-- Insert-or-update (`unordered_map::operator[] = v`): replaces the entry in
place when the key is present, appends it otherwise. -/
def graphSet : SocialUserGraph → XUID → xbox_social_user_context → SocialUserGraph
  | [], k, c => [(k, c)]
  | (k', c') :: rest, k, c =>
    if k' = k then (k, c) :: rest else (k', c') :: graphSet rest k c

/-- Key removal (`unordered_map::erase`). -/
def graphErase (g : SocialUserGraph) (k : XUID) : SocialUserGraph :=
  g.filter (fun p => p.1 != k)

theorem assocFind_graphSet (g : SocialUserGraph) (k : XUID)
    (c : xbox_social_user_context) (k' : XUID) :
    assocFind (graphSet g k c) k' = if k = k' then some c else assocFind g k' := by
  induction g with
  | nil => simp [graphSet, assocFind]
  | cons p rest ih =>
    obtain ⟨pk, pc⟩ := p
    by_cases hpk : pk = k
    · subst hpk
      by_cases hk : pk = k'
      · subst hk; simp [graphSet, assocFind]
      · simp [graphSet, assocFind, hk]
    · by_cases hk2 : pk = k'
      · subst hk2
        have hkk : ¬ k = pk := fun h => hpk h.symm
        simp [graphSet, if_neg hpk, assocFind, hkk]
      · simp [graphSet, if_neg hpk, assocFind, hk2, ih]

theorem assocFind_graphErase (g : SocialUserGraph) (k k' : XUID) :
    assocFind (graphErase g k) k' = if k = k' then none else assocFind g k' := by
  induction g with
  | nil => simp [graphErase, assocFind]
  | cons p rest ih =>
    obtain ⟨pk, pc⟩ := p
    by_cases hpk : pk = k
    · subst hpk
      by_cases hk : pk = k'
      · subst hk
        simp [graphErase, assocFind, List.filter] at ih ⊢
        simpa using ih
      · simp [graphErase, assocFind, List.filter, hk] at ih ⊢
        simpa [hk] using ih
    · by_cases hk : pk = k'
      · subst hk
        have hne : (pk != k) = true := by simpa using hpk
        simp [graphErase, List.filter, hne, assocFind]
        intro h
        exact absurd h.symm hpk
      · have hne : (pk != k) = true := by simpa using hpk
        simp [graphErase, List.filter, hne, assocFind, hk] at ih ⊢
        exact ih

theorem assocFind_append {α : Type} (g h : List (XUID × α)) (k : XUID) :
    assocFind (g ++ h) k =
      match assocFind g k with
      | some c => some c
      | none => assocFind h k := by
  induction g with
  | nil => simp [assocFind]
  | cons p rest ih =>
    obtain ⟨pk, pc⟩ := p
    by_cases hk : pk = k
    · simp [assocFind, hk]
    · simp [assocFind, hk, ih]

theorem graphSet_of_find_none (g : SocialUserGraph) (k : XUID)
    (c : xbox_social_user_context) (h : assocFind g k = none) :
    graphSet g k c = g ++ [(k, c)] := by
  induction g with
  | nil => simp [graphSet]
  | cons p rest ih =>
    obtain ⟨pk, pc⟩ := p
    simp only [assocFind] at h
    by_cases hk : pk = k
    · simp [hk] at h
    · simp only [graphSet, if_neg hk, List.cons_append, List.cons.injEq, true_and]
      exact ih (by simpa [hk] using h)

theorem graphSet_append_head (g t : SocialUserGraph) (k : XUID)
    (c c' : xbox_social_user_context) (h : assocFind g k = none) :
    graphSet (g ++ (k, c) :: t) k c' = g ++ (k, c') :: t := by
  induction g with
  | nil => simp [graphSet]
  | cons p rest ih =>
    obtain ⟨pk, pc⟩ := p
    simp only [assocFind] at h
    by_cases hk : pk = k
    · simp [hk] at h
    · simp only [List.cons_append, graphSet, if_neg hk, List.cons.injEq, true_and]
      exact ih (by simpa [hk] using h)

theorem graphErase_of_find_none (g : SocialUserGraph) (k : XUID)
    (h : assocFind g k = none) : graphErase g k = g := by
  induction g with
  | nil => rfl
  | cons p rest ih =>
    obtain ⟨pk, pc⟩ := p
    simp only [assocFind] at h
    by_cases hk : pk = k
    · simp [hk] at h
    · have hne : (pk != k) = true := by simpa using hk
      simp only [graphErase, List.filter, hne]
      have := ih (by simpa [hk] using h)
      simpa [graphErase] using this

theorem graphErase_append (g t : SocialUserGraph) (k : XUID) :
    graphErase (g ++ t) k = graphErase g k ++ graphErase t k := by
  simp [graphErase, List.filter_append]

theorem graphErase_cons_head (t : SocialUserGraph) (k : XUID)
    (c : xbox_social_user_context) (h : ∀ p ∈ t, p.1 ≠ k) :
    graphErase ((k, c) :: t) k = t := by
  simp only [graphErase, List.filter]
  have : (k != k) = false := by simp
  rw [this]
  exact List.filter_eq_self.mpr (fun p hp => by simpa using h p hp)

/-- Translates `internal_social_event_type`. -/
inductive internal_social_event_type where
  | users_added
  | users_changed
  | users_removed
  | presence_changed
  | device_presence_changed
  | title_presence_changed
  | social_relationships_changed
  | profiles_changed
  | unknown
deriving DecidableEq

/-- Translates `social_event_type` (restricted to the kinds produced by
`social_graph.cpp`). -/
inductive social_event_type where
  | users_added_to_social_graph
  | users_removed_from_social_graph
  | presence_changed
  | profiles_changed
  | social_relationships_changed
  | unknown
deriving DecidableEq

/-- Translates `social_graph_state`. -/
inductive social_graph_state where
  | normal
  | diff
  | event_processing
  | refresh
deriving DecidableEq

/-- Translates `title_presence_state`. -/
inductive title_presence_state where
  | started
  | ended
deriving DecidableEq

/-- Translates `device_presence_change_event_args` (the fields
`social_graph.cpp` reads: `xbox_user_id`, `device_type`,
`is_user_logged_on_device`). -/
structure device_presence_change_event_args where
  xboxUserId : XUID := 0
  deviceType : Nat := 0
  isUserLoggedOnDevice : Bool := false
deriving DecidableEq

/-- Translates `title_presence_change_event_args` (the fields read:
`xbox_user_id`, `title_id`, `title_state`). -/
structure title_presence_change_event_args where
  xboxUserId : XUID := 0
  titleId : Nat := 0
  titleState : title_presence_state := .ended
deriving DecidableEq

/-- Translates `call_buffer_timer_completion_context`. `tceId` identifies the
`task_completion_event` held by the context (promise identity, so that
resolutions can be logged). -/
structure call_buffer_timer_completion_context where
  isNull : Bool := true
  context : Nat := 0
  numObjects : Nat := 0
  tceId : Nat := 0
deriving DecidableEq

/-- Modelled from the spec: `internal_social_event` (declared in
`social_manager_internal.h`, outside the provided source). One structure with
the payload accessors `social_graph.cpp` uses: `users_affected()`,
`users_affected_as_string_vec()` (ids, modelled numerically),
`users_to_remove()`, `presence_records()`, `device_presence_args()`,
`title_presence_args()`, `tce()` (promise identity), `completion_context()`
and `error()` (error code, `0` = `no_error`). -/
structure internal_social_event where
  eventType : internal_social_event_type := .unknown
  usersAffected : List xbox_social_user := []
  usersAffectedStr : List XUID := []
  usersToRemove : List XUID := []
  presenceRecords : List social_manager_presence_record := []
  deviceArgs : device_presence_change_event_args := {}
  titleArgs : title_presence_change_event_args := {}
  tceId : Nat := 0
  completionContext : call_buffer_timer_completion_context := {}
  error : Nat := 0
deriving DecidableEq

/-- Translates `social_event` as stored in `event_queue::m_socialEventList`:
the event type, the affected user ids (built from
`users_affected_as_string_vec()`), and the error code. -/
structure social_event where
  eventType : social_event_type
  usersAffected : List XUID
  err : Nat
deriving DecidableEq

/-- Translates `user_buffer`: the graph map, the cached-event replay queue
`socialUserEventQueue`, and the length of the `freeData` slot queue. -/
structure user_buffer where
  socialUserGraph : SocialUserGraph := []
  socialUserEventQueue : List internal_social_event := []
  freeDataCount : Nat := 0
deriving DecidableEq

/-- Translates `user_buffers_holder`: the two buffers plus the
`m_activeBuffer` / `m_inactiveBuffer` pointers, abstracted as `buffersSet`
(both pointers non-null) and `activeIsA` (`m_activeBuffer == &m_userBufferA`).
`initialize` sets active = A, inactive = B. -/
structure user_buffers_holder where
  userBufferA : user_buffer := {}
  userBufferB : user_buffer := {}
  buffersSet : Bool := false
  activeIsA : Bool := true
deriving DecidableEq

/-- Translates `user_buffers_holder::swap`: `m_activeBuffer == &m_userBufferA`
sends active to B, otherwise (including null pointers) active becomes A; both
pointers are (re)assigned in either branch. -/
def user_buffers_holder.swap (h : user_buffers_holder) : user_buffers_holder :=
  if h.buffersSet && h.activeIsA then { h with activeIsA := false, buffersSet := true }
  else { h with activeIsA := true, buffersSet := true }

/-- Translates `user_buffers_holder::active_buffer` (`none` = null pointer). -/
def user_buffers_holder.activeBuffer? (h : user_buffers_holder) : Option user_buffer :=
  if h.buffersSet then some (if h.activeIsA then h.userBufferA else h.userBufferB) else none

/-- Translates `user_buffers_holder::inactive_buffer` (`none` = null
pointer). -/
def user_buffers_holder.inactiveBuffer? (h : user_buffers_holder) : Option user_buffer :=
  if h.buffersSet then some (if h.activeIsA then h.userBufferB else h.userBufferA) else none

/-- Translates the `social_graph` object state reachable from the event
pipeline, plus ghost logs of externally visible calls.

State fields: `m_isInitialized`, `m_socialGraphState`, `m_userBuffer`,
`m_internalEventQueue`, `m_socialEventQueue` (the public `event_queue`,
flattened to its `m_socialEventList`), `m_numEventsThisFrame`,
`m_userAddedContext`.

Ghost logs (appended when the corresponding external call is issued):
`tceResolutions` — `task_completion_event::set` calls as (promise id, error
code); `refreshTimerFires` — `m_socialGraphRefreshTimer->fire` argument
lists; `presenceTimerFires` — `m_presenceRefreshTimer->fire` argument lists;
`subscribeCalls` — ids passed to presence/title subscription setup;
`unsubscribeCalls` — ids for which a device-presence + title-presence
unsubscribe pair was actually issued. -/
structure social_graph where
  isInitialized : Bool := false
  socialGraphState : social_graph_state := .normal
  userBuffer : user_buffers_holder := {}
  internalEventQueue : List internal_social_event := []
  socialEventQueue : List social_event := []
  numEventsThisFrame : Nat := 0
  userAddedContext : Nat := 0
  tceResolutions : List (Nat × Nat) := []
  refreshTimerFires : List (List XUID) := []
  presenceTimerFires : List (List XUID) := []
  subscribeCalls : List XUID := []
  unsubscribeCalls : List XUID := []
deriving DecidableEq

/-- Applies `f` to the buffer the inactive pointer designates; a no-op when
the pointers are null (the C++ would dereference a null pointer, which the
translated call sites never do). -/
def social_graph.updateInactive (s : social_graph) (f : user_buffer → user_buffer) :
    social_graph :=
  if s.userBuffer.buffersSet then
    if s.userBuffer.activeIsA then
      { s with userBuffer := { s.userBuffer with userBufferB := f s.userBuffer.userBufferB } }
    else
      { s with userBuffer := { s.userBuffer with userBufferA := f s.userBuffer.userBufferA } }
  else s

/-- The inactive buffer's graph map (`[]` when the pointer is null). -/
def social_graph.inactiveGraph (s : social_graph) : SocialUserGraph :=
  match s.userBuffer.inactiveBuffer? with
  | some b => b.socialUserGraph
  | none => []

/-- The inactive buffer's `freeData` queue length (`0` when null). -/
def social_graph.inactiveFreeCount (s : social_graph) : Nat :=
  match s.userBuffer.inactiveBuffer? with
  | some b => b.freeDataCount
  | none => 0

/-- The inactive buffer's cached-event queue (`[]` when null). -/
def social_graph.inactiveEventQueue (s : social_graph) : List internal_social_event :=
  match s.userBuffer.inactiveBuffer? with
  | some b => b.socialUserEventQueue
  | none => []

/-- The active buffer's cached-event queue (`[]` when null). -/
def social_graph.activeEventQueue (s : social_graph) : List internal_social_event :=
  match s.userBuffer.activeBuffer? with
  | some b => b.socialUserEventQueue
  | none => []

/-- Writes a new graph map through the inactive pointer. -/
def social_graph.setInactiveGraph (s : social_graph) (g : SocialUserGraph) : social_graph :=
  s.updateInactive (fun b => { b with socialUserGraph := g })

/-- Writes a new graph map and `freeData` length through the inactive
pointer. -/
def social_graph.setInactiveGraphFree (s : social_graph) (g : SocialUserGraph)
    (n : Nat) : social_graph :=
  s.updateInactive (fun b => { b with socialUserGraph := g, freeDataCount := n })

/-- Translates `social_graph::set_state`. -/
def social_graph.set_state (s : social_graph) (st : social_graph_state) : social_graph :=
  { s with socialGraphState := st }

/-- Appends a `social_event` to `m_socialEventQueue`
(`event_queue::push` after its unknown-type guard has passed). -/
def social_graph.pushSocialEvent (s : social_graph) (e : social_event) : social_graph :=
  { s with socialEventQueue := s.socialEventQueue ++ [e] }

/-- Logs a `task_completion_event::set(result)` call. -/
def social_graph.resolveTce (s : social_graph) (tceId : Nat) (err : Nat) : social_graph :=
  { s with tceResolutions := s.tceResolutions ++ [(tceId, err)] }

/-- Logs an `m_socialGraphRefreshTimer->fire(users, completionContext)`
call. -/
def social_graph.fireRefreshTimer (s : social_graph) (users : List XUID) : social_graph :=
  { s with refreshTimerFires := s.refreshTimerFires ++ [users] }

/-- Logs an `m_presenceRefreshTimer->fire(users)` call. -/
def social_graph.firePresenceTimer (s : social_graph) (users : List XUID) : social_graph :=
  { s with presenceTimerFires := s.presenceTimerFires ++ [users] }

/-- Translates `social_graph::setup_device_and_presence_subscriptions`: the
spawned task subscribes device and title presence for each id (logged in
`subscribeCalls`). -/
def social_graph.setup_device_and_presence_subscriptions (s : social_graph)
    (users : List XUID) : social_graph :=
  { s with subscribeCalls := s.subscribeCalls ++ users }

/-- Translates `social_graph::unsubscribe_users`. The local
`std::weak_ptr<social_graph> thisWeakPtr;` is default-constructed and never
assigned from `shared_from_this()`, so inside the spawned task
`thisWeakPtr.lock()` yields null and the task returns immediately: no
device-presence or title-presence unsubscribe is ever issued, for any user
(`unsubscribeCalls` is never appended to). -/
def social_graph.unsubscribe_users (s : social_graph) (users : List XUID) : social_graph :=
  s

/-- Translates `event_queue::push(evt, user, socialEventType, error)`:
returns unchanged on `social_event_type::unknown`, otherwise appends a
`social_event` built from `users_affected_as_string_vec()` and the error. -/
def social_graph.socialEventQueuePush (s : social_graph) (evt : internal_social_event)
    (t : social_event_type) (err : Nat) : social_graph :=
  if t = .unknown then s
  else s.pushSocialEvent { eventType := t, usersAffected := evt.usersAffectedStr, err := err }

/-- The context after the `++refCount` of `apply_users_added_event`. -/
def incRefContext (c : xbox_social_user_context) : xbox_social_user_context :=
  { c with refCount := incU32 c.refCount }

/-- Translates the first loop of `social_graph::apply_users_added_event`: for
each id, increment the `refCount` of an existing entry, or collect the id in
`usersToAdd` (second component, in encounter order). -/
def addPhase1 (g : SocialUserGraph) : List XUID → SocialUserGraph × List XUID
  | [] => (g, [])
  | id :: rest =>
    match assocFind g id with
    | some c => addPhase1 (graphSet g id (incRefContext c)) rest
    | none =>
      let r := addPhase1 g rest
      (r.1, id :: r.2)

/-- Translates the second loop of `social_graph::apply_users_added_event`:
each collected id gets `socialUser = nullptr` and `refCount = 1` (the two
`operator[]` writes are collapsed into one map write with the same net
effect). -/
def insertNewUsers (g : SocialUserGraph) : List XUID → SocialUserGraph
  | [] => g
  | id :: rest => insertNewUsers (graphSet g id ⟨none, 1⟩) rest

/-- The context after the `--refCount` of `apply_users_removed_event`
(read through `operator[]`, hence the value-initialised default for an
untracked id, and wrapping `0` to `2^32 - 1`). -/
def decRefContext (c : xbox_social_user_context) : xbox_social_user_context :=
  { c with refCount := decU32 c.refCount }

/-- Translates the loop of `social_graph::apply_users_removed_event`:
decrement `refCount` through `operator[]`; at zero, ids whose slot holds a
user are collected in `removeUsers` (second component), ids with an empty
slot are erased outright; the third component records whether `eventType`
was set to `users_removed_from_social_graph`. -/
def removeLoop (g : SocialUserGraph) : List XUID → SocialUserGraph × List XUID × Bool
  | [] => (g, [], false)
  | id :: rest =>
    let c1 := decRefContext ((assocFind g id).getD {})
    let g1 := graphSet g id c1
    if c1.refCount = 0 then
      match c1.socialUser with
      | some _ =>
        let r := removeLoop g1 rest
        (r.1, id :: r.2.1, true)
      | none =>
        let r := removeLoop (graphErase g1 id) rest
        (r.1, r.2.1, true)
    else
      let r := removeLoop g1 rest
      (r.1, r.2.1, r.2.2)

/-- Translates `user_buffers_holder::remove_users_from_buffer`: each found id
has its slot pushed onto `freeData` (count + 1) and its map entry erased;
missing ids are logged and skipped. -/
def bufferRemoveLoop (g : SocialUserGraph) (free : Nat) :
    List XUID → SocialUserGraph × Nat
  | [] => (g, free)
  | id :: rest =>
    match assocFind g id with
    | some _ => bufferRemoveLoop (graphErase g id) (free + 1) rest
    | none => bufferRemoveLoop g free rest

/-- Translates the classification loop of
`social_graph::apply_users_change_event`: ids absent from the map were
deleted during the lookup and are skipped; an empty slot sends the profile to
`usersToAdd` (second component); an occupied slot is overwritten in place and
the profile goes to `usersChanged` (third component). -/
def classifyUsers (g : SocialUserGraph) :
    List xbox_social_user → SocialUserGraph × List xbox_social_user × List xbox_social_user
  | [] => (g, [], [])
  | u :: rest =>
    match assocFind g u.xboxUserId with
    | none => classifyUsers g rest
    | some c =>
      match c.socialUser with
      | none =>
        let r := classifyUsers g rest
        (r.1, u :: r.2.1, r.2.2)
      | some _ =>
        let r := classifyUsers (graphSet g u.xboxUserId { c with socialUser := some u }) rest
        (r.1, r.2.1, u :: r.2.2)

/-- Translates the per-user loop of `user_buffers_holder::add_users_to_buffer`
(slot pop from `freeData`, placement-new copy, then registration via
`initialize_users_in_map`): an absent id is appended with `refCount = 1`, a
present id has its slot pointer overwritten. -/
def addUsersLoop : SocialUserGraph → Nat → List xbox_social_user → SocialUserGraph × Nat
  | g, free, [] => (g, free)
  | g, free, u :: rest =>
    let g1 :=
      match assocFind g u.xboxUserId with
      | none => g ++ [(u.xboxUserId, ⟨some u, 1⟩)]
      | some c => graphSet g u.xboxUserId { c with socialUser := some u }
    addUsersLoop g1 (free - 1) rest

/-- Translates `user_buffers_holder::add_users_to_buffer`: when
`max(finalSize, users.size())` exceeds the free-slot count the slab is
reallocated — live users are copied, the map is rebuilt over the new slot
addresses with unchanged contents, and the free list is repopulated with
`EXTRA_USER_FREE_SPACE + totalSizeNeeded` slots — then each incoming user
consumes a free slot and is registered in the map. -/
def add_users_to_buffer (g : SocialUserGraph) (free : Nat)
    (users : List xbox_social_user) (finalSize : Nat) : SocialUserGraph × Nat :=
  let totalSizeNeeded := max finalSize users.length
  let free0 := if totalSizeNeeded > free then EXTRA_USER_FREE_SPACE + totalSizeNeeded else free
  addUsersLoop g free0 users

/-- Translates the loop of `social_graph::apply_presence_changed_event`:
records with id `0` or no (non-null) stored user are skipped; a record that
differs from the stored one (`_Compare`) overwrites it and its id is
collected (second component, encounter order). -/
def presenceLoop (g : SocialUserGraph) :
    List social_manager_presence_record → SocialUserGraph × List XUID
  | [] => (g, [])
  | pr :: rest =>
    if pr.xboxUserId = 0 then presenceLoop g rest
    else
      match assocFind g pr.xboxUserId with
      | none => presenceLoop g rest
      | some c =>
        match c.socialUser with
        | none => presenceLoop g rest
        | some u =>
          if u.presenceRecord.compareRecord pr then
            let g1 := graphSet g pr.xboxUserId
              { c with socialUser := some { u with presenceRecord := pr } }
            let r := presenceLoop g1 rest
            (r.1, pr.xboxUserId :: r.2)
          else presenceLoop g rest

/-- Translates the `social_relationships_changed` / `profiles_changed` loop of
`social_graph::apply_event`: `*graph[id].socialUser = user` overwrites the
slot contents in place. (When the id is absent or the slot is null the C++
dereferences a null pointer — undefined behaviour; the model totalises it as
a plain slot write preserving the entry's `refCount`.) -/
def profilesLoop (g : SocialUserGraph) : List xbox_social_user → SocialUserGraph
  | [] => g
  | u :: rest =>
    profilesLoop
      (graphSet g u.xboxUserId { (assocFind g u.xboxUserId).getD {} with socialUser := some u })
      rest

/-- Translates `social_graph::apply_users_added_event`. Present ids are
re-referenced, new ids are collected; with nothing to add the event's
`task_completion_event` resolves success immediately; otherwise a completion
context is built (`++m_userAddedContext`), the graph-refresh timer is fired
for a fresh event, and the new ids get empty slots with `refCount = 1`. -/
def social_graph.apply_users_added_event (s : social_graph)
    (evt : internal_social_event) (isFreshEvent : Bool) : social_graph :=
  let p := addPhase1 s.inactiveGraph evt.usersAffectedStr
  if p.2.isEmpty then
    (s.setInactiveGraph p.1).resolveTce evt.tceId 0
  else
    let s1 := s.setInactiveGraph (insertNewUsers p.1 p.2)
    let s2 := { s1 with userAddedContext := s1.userAddedContext + 1 }
    if isFreshEvent then s2.fireRefreshTimer p.2 else s2

/-- Translates `social_graph::apply_users_removed_event`: the decrement loop,
then `remove_users_from_buffer` for the collected ids, then (fresh events
only) `unsubscribe_users`. Returns the state and the (possibly updated)
`social_event_type` out-parameter value. -/
def social_graph.apply_users_removed_event (s : social_graph)
    (evt : internal_social_event) (isFreshEvent : Bool) :
    social_graph × social_event_type :=
  let r := removeLoop s.inactiveGraph evt.usersToRemove
  let br := bufferRemoveLoop r.1 s.inactiveFreeCount r.2.1
  let s1 := s.setInactiveGraphFree br.1 br.2
  let s2 := if isFreshEvent then s1.unsubscribe_users r.2.1 else s1
  (s2, if r.2.2 then .users_removed_from_social_graph else .unknown)

/-- Translates `social_graph::apply_users_change_event`: resolve the attached
completion promise with the event's result; on an error push the public
`users_added_to_social_graph` error event and return; otherwise classify the
profiles, grow the buffer for fresh slots (subscribing and emitting
`users_added_to_social_graph` when fresh) and emit `profiles_changed` for
overwritten ones (fresh only). -/
def social_graph.apply_users_change_event (s : social_graph)
    (evt : internal_social_event) (isFreshEvent : Bool) : social_graph :=
  let s0 := if evt.completionContext.isNull then s
            else s.resolveTce evt.completionContext.tceId evt.error
  if evt.error ≠ 0 then
    s0.socialEventQueuePush evt .users_added_to_social_graph evt.error
  else
    let cl := classifyUsers s0.inactiveGraph evt.usersAffected
    let toAdd := cl.2.1
    let changed := cl.2.2
    let s1 :=
      if toAdd.isEmpty then s0.setInactiveGraph cl.1
      else
        let ab := add_users_to_buffer cl.1 s0.inactiveFreeCount toAdd
          evt.completionContext.numObjects
        let s1a := s0.setInactiveGraphFree ab.1 ab.2
        if isFreshEvent then
          (s1a.setup_device_and_presence_subscriptions
              (toAdd.map (·.xboxUserId))).pushSocialEvent
            { eventType := .users_added_to_social_graph,
              usersAffected := toAdd.map (·.xboxUserId), err := 0 }
        else s1a
    if !changed.isEmpty && isFreshEvent then
      s1.pushSocialEvent
        { eventType := .profiles_changed,
          usersAffected := changed.map (·.xboxUserId), err := 0 }
    else s1

/-- Translates `social_graph::apply_device_presence_changed_event`: a missing
or empty-slot user is logged and skipped; `fireCallbackTimer` is
`presence_title_records().size() > 1 || is_user_logged_on_device()`; a fresh
event with the flag set fires the presence refresh timer; with the flag clear
the device flag is updated inline and the out-parameter becomes
`presence_changed`. -/
def social_graph.apply_device_presence_changed_event (s : social_graph)
    (evt : internal_social_event) (isFreshEvent : Bool) :
    social_graph × social_event_type :=
  let args := evt.deviceArgs
  match assocFind s.inactiveGraph args.xboxUserId with
  | none => (s, .unknown)
  | some c =>
    match c.socialUser with
    | none => (s, .unknown)
    | some u =>
      let fireCallbackTimer :=
        decide (u.presenceRecord.presenceTitleRecords.length > 1) || args.isUserLoggedOnDevice
      if fireCallbackTimer && isFreshEvent then
        (s.firePresenceTimer [args.xboxUserId], .unknown)
      else if !fireCallbackTimer then
        let u1 := { u with presenceRecord :=
          u.presenceRecord.updateDevice args.deviceType args.isUserLoggedOnDevice }
        (s.setInactiveGraph
          (graphSet s.inactiveGraph args.xboxUserId { c with socialUser := some u1 }),
         .presence_changed)
      else (s, .unknown)

/-- Translates `social_graph::apply_presence_changed_event`: run the compare
and overwrite loop; a fresh event with a non-empty change set pushes a public
`presence_changed` event for the collected ids. -/
def social_graph.apply_presence_changed_event (s : social_graph)
    (evt : internal_social_event) (isFreshEvent : Bool) : social_graph :=
  let r := presenceLoop s.inactiveGraph evt.presenceRecords
  let s1 := s.setInactiveGraph r.1
  if isFreshEvent && !r.2.isEmpty then
    s1.pushSocialEvent { eventType := .presence_changed, usersAffected := r.2, err := 0 }
  else s1

/-- Translates `social_graph::apply_event`: bail out on a null inactive
buffer, dispatch on the event type with `eventType` initialised to `unknown`,
then for a fresh event push the event to the public queue (a no-op when
`eventType` is still `unknown`). -/
def social_graph.apply_event (s : social_graph) (evt : internal_social_event)
    (isFreshEvent : Bool) : social_graph :=
  match s.userBuffer.inactiveBuffer? with
  | none => s
  | some _ =>
    let r : social_graph × social_event_type :=
      match evt.eventType with
      | .users_added => (s.apply_users_added_event evt isFreshEvent, .unknown)
      | .users_changed => (s.apply_users_change_event evt isFreshEvent, .unknown)
      | .users_removed => s.apply_users_removed_event evt isFreshEvent
      | .device_presence_changed => s.apply_device_presence_changed_event evt isFreshEvent
      | .title_presence_changed =>
        let args := evt.titleArgs
        match assocFind s.inactiveGraph args.xboxUserId with
        | none => (s, .unknown)
        | some c =>
          match c.socialUser with
          | none => (s, .unknown)
          | some u =>
            let u1 := { u with presenceRecord := u.presenceRecord.removeTitle args.titleId }
            let s1 :=
              if args.titleState = .ended then
                s.setInactiveGraph
                  (graphSet s.inactiveGraph args.xboxUserId { c with socialUser := some u1 })
              else s
            (s1, .presence_changed)
      | .presence_changed => (s.apply_presence_changed_event evt isFreshEvent, .unknown)
      | .social_relationships_changed =>
        (s.setInactiveGraph (profilesLoop s.inactiveGraph evt.usersAffected),
         .profiles_changed)
      | .profiles_changed =>
        (s.setInactiveGraph (profilesLoop s.inactiveGraph evt.usersAffected),
         .profiles_changed)
      | .unknown => (s, .unknown)
    if isFreshEvent then r.1.socialEventQueuePush evt r.2 0 else r.1

/-- Translates `user_buffers_holder::add_event`:
`m_activeBuffer->socialUserEventQueue.push(evt)` — the mirrored event goes to
the queue of the buffer the ACTIVE pointer designates. (With null pointers
the C++ would dereference null; the call site runs only after
initialisation.) -/
def social_graph.userBuffer_add_event (s : social_graph)
    (evt : internal_social_event) : social_graph :=
  if s.userBuffer.buffersSet then
    if s.userBuffer.activeIsA then
      { s with userBuffer := { s.userBuffer with userBufferA :=
          { s.userBuffer.userBufferA with socialUserEventQueue :=
              s.userBuffer.userBufferA.socialUserEventQueue ++ [evt] } } }
    else
      { s with userBuffer := { s.userBuffer with userBufferB :=
          { s.userBuffer.userBufferB with socialUserEventQueue :=
              s.userBuffer.userBufferB.socialUserEventQueue ++ [evt] } } }
  else s

/-- Translates `social_graph::process_events`: when the internal queue is
non-empty and fewer than `NUM_EVENTS_PER_FRAME` events were applied this
frame, increment the counter, pop one event, apply it fresh and mirror it via
`add_event`. Returns the state and `shouldApplyEvent`. -/
def social_graph.process_events (s : social_graph) : social_graph × Bool :=
  let shouldApplyEvent :=
    !s.internalEventQueue.isEmpty && decide (s.numEventsThisFrame < NUM_EVENTS_PER_FRAME)
  if shouldApplyEvent then
    match s.internalEventQueue with
    | [] => (s, shouldApplyEvent)
    | evt :: rest =>
      let s1 := { s with numEventsThisFrame := s.numEventsThisFrame + 1,
                         internalEventQueue := rest }
      let s2 := s1.apply_event evt true
      (s2.userBuffer_add_event evt, shouldApplyEvent)
  else (s, shouldApplyEvent)

/-- The pop-and-apply loop of `social_graph::process_cached_events`, draining
a snapshot of the inactive buffer's queue with `is_fresh = false`. Second
component: the number of `apply_event` calls made. (`apply_event` never
pushes to a buffer's cached-event queue, so draining the snapshot coincides
with the source's pop-one-recheck loop.) -/
def drainLoop : social_graph → List internal_social_event → social_graph × Nat
  | s, [] => (s, 0)
  | s, evt :: rest =>
    let r := drainLoop (s.apply_event evt false) rest
    (r.1, r.2 + 1)

/-- Translates `social_graph::process_cached_events`: with a non-null
inactive buffer, drain its cached-event queue applying each event with
`is_fresh = false`, then set the state back to `normal`. Second component:
number of `apply_event` calls. -/
def social_graph.process_cached_events (s : social_graph) : social_graph × Nat :=
  match s.userBuffer.inactiveBuffer? with
  | none => (s, 0)
  | some buf =>
    let s1 := s.updateInactive (fun b => { b with socialUserEventQueue := [] })
    let r := drainLoop s1 buf.socialUserEventQueue
    (r.1.set_state .normal, r.2)

/-- Result of one `social_graph::do_event_work` call, instrumented with ghost
counters of `apply_event` invocations (total, and those with
`is_fresh = true`). -/
structure worker_result where
  state : social_graph
  hasRemainingEvent : Bool
  freshApplies : Nat
  totalApplies : Nat

/-- Translates `social_graph::do_event_work`: set `event_processing`; with
cached events on the inactive buffer (initialised, non-null, non-empty
queue), replay them all; otherwise when initialised set `normal` and run
`process_events`; otherwise just set `normal`. -/
def social_graph.do_event_work (s : social_graph) : worker_result :=
  let s0 := s.set_state .event_processing
  let hasCachedEvents :=
    s0.isInitialized && s0.userBuffer.inactiveBuffer?.isSome
      && !s0.inactiveEventQueue.isEmpty
  if hasCachedEvents then
    let r := s0.process_cached_events
    ⟨r.1, true, 0, r.2⟩
  else if s0.isInitialized then
    let s1 := s0.set_state .normal
    let r := s1.process_events
    ⟨r.1, r.2, if r.2 then 1 else 0, if r.2 then 1 else 0⟩
  else
    ⟨s0.set_state .normal, false, 0, 0⟩

/-- Translates `change_struct` (`socialUsers` is the snapshot pointer into
the active buffer's graph map, null when the active pointer is null). -/
structure change_struct where
  socialUsers : Option SocialUserGraph
deriving DecidableEq

/-- Translates `social_graph::do_work`: reset the per-frame event counter;
swap the buffers when the state is `normal`, the inactive pointer is non-null
and the inactive buffer's cached-event queue is empty; point the returned
`change_struct` at the (post-swap) active buffer's graph; when the public
event queue is non-empty and the state is `normal`, append all public events
to the caller's vector and clear the queue. -/
def social_graph.do_work (s : social_graph) (socialEvents : List social_event) :
    social_graph × List social_event × change_struct :=
  let s0 := { s with numEventsThisFrame := 0 }
  let doSwap := decide (s0.socialGraphState = .normal)
    && s0.userBuffer.inactiveBuffer?.isSome && s0.inactiveEventQueue.isEmpty
  let s1 := if doSwap then { s0 with userBuffer := s0.userBuffer.swap } else s0
  let changeStruct : change_struct :=
    ⟨s1.userBuffer.activeBuffer?.map (·.socialUserGraph)⟩
  if !s1.socialEventQueue.isEmpty && decide (s1.socialGraphState = .normal) then
    ({ s1 with socialEventQueue := [] }, socialEvents ++ s1.socialEventQueue, changeStruct)
  else (s1, socialEvents, changeStruct)

/-- Result of a run of consecutive `do_event_work` calls (the worker steps
that happen between two `do_work` returns), with the accumulated ghost
counters. -/
structure run_result where
  state : social_graph
  freshApplies : Nat
  totalApplies : Nat

/-- Runs `n` consecutive `do_event_work` worker iterations. -/
def runWorker : Nat → social_graph → run_result
  | 0, s => ⟨s, 0, 0⟩
  | n + 1, s =>
    let r := s.do_event_work
    let rest := runWorker n r.state
    ⟨rest.state, r.freshApplies + rest.freshApplies, r.totalApplies + rest.totalApplies⟩

/-- Builds the `users_added` internal event pushed by
`social_graph::add_users(users, tce)`. -/
def mkUsersAddedEvent (ids : List XUID) (tceId : Nat) : internal_social_event :=
  { eventType := .users_added, usersAffectedStr := ids, tceId := tceId }

/-- Builds the `users_removed` internal event pushed by
`social_graph::remove_users(users)`. -/
def mkUsersRemovedEvent (ids : List XUID) : internal_social_event :=
  { eventType := .users_removed, usersToRemove := ids, usersAffectedStr := ids }

/-- Builds the `users_changed` event pushed by the success branch of
`social_graph::social_graph_timer_callback` (and, with a null completion
context, by `perform_diff`). -/
def mkUsersChangedEvent (users : List xbox_social_user)
    (ctx : call_buffer_timer_completion_context) : internal_social_event :=
  { eventType := .users_changed, usersAffected := users,
    usersAffectedStr := users.map (·.xboxUserId), completionContext := ctx }

/-- Builds the error-carrying `users_changed` event pushed by the failure
branch of `social_graph::social_graph_timer_callback` (the requested id
strings become `users_affected_as_string_vec`, the fetch error is attached,
and `set_completion_context` installs the completion context). -/
def mkUsersChangedErrorEvent (ids : List XUID) (err : Nat)
    (ctx : call_buffer_timer_completion_context) : internal_social_event :=
  { eventType := .users_changed, usersAffectedStr := ids, error := err,
    completionContext := ctx }

/-- Builds the `device_presence_changed` event pushed by
`social_graph::handle_device_presence_change`. -/
def mkDevicePresenceEvent (args : device_presence_change_event_args) :
    internal_social_event :=
  { eventType := .device_presence_changed, deviceArgs := args,
    usersAffectedStr := [args.xboxUserId] }

/-- Builds the `presence_changed` event (from `perform_diff` or
`presence_timer_callback`). -/
def mkPresenceChangedEvent (records : List social_manager_presence_record) :
    internal_social_event :=
  { eventType := .presence_changed, presenceRecords := records,
    usersAffectedStr := records.map (·.xboxUserId) }

/-- Builds the `profiles_changed` event pushed by `perform_diff`. -/
def mkProfilesChangedEvent (users : List xbox_social_user) : internal_social_event :=
  { eventType := .profiles_changed, usersAffected := users,
    usersAffectedStr := users.map (·.xboxUserId) }

/-- Builds the `social_relationships_changed` event pushed by
`perform_diff`. -/
def mkRelationshipsChangedEvent (users : List xbox_social_user) : internal_social_event :=
  { eventType := .social_relationships_changed, usersAffected := users,
    usersAffectedStr := users.map (·.xboxUserId) }

/-- Translates `social_graph::add_users`: push a `users_added` internal event
carrying the ids and the completion promise. -/
def social_graph.add_users (s : social_graph) (ids : List XUID) (tceId : Nat) :
    social_graph :=
  { s with internalEventQueue := s.internalEventQueue ++ [mkUsersAddedEvent ids tceId] }

/-- Translates `social_graph::remove_users`: push a `users_removed` internal
event carrying the ids. -/
def social_graph.remove_users (s : social_graph) (ids : List XUID) : social_graph :=
  { s with internalEventQueue := s.internalEventQueue ++ [mkUsersRemovedEvent ids] }

/-- The `usersAddedList` of `social_graph::perform_diff`: fetched users whose
id is absent from the inactive buffer's map, in fetch order. -/
def diffUsersAddedList (g : SocialUserGraph)
    (fetched : List (XUID × xbox_social_user)) : List xbox_social_user :=
  fetched.filterMap (fun p => if (assocFind g p.1).isNone then some p.2 else none)

/-- The `usersRemovedList` of `social_graph::perform_diff`: ids in the
inactive buffer's map that are absent from the fetched map and whose stored
slot holds a user with `is_following_user()` true. -/
def diffUsersRemovedList (g : SocialUserGraph)
    (fetched : List (XUID × xbox_social_user)) : List XUID :=
  g.filterMap (fun e =>
    match e.2.socialUser with
    | some u =>
      if (assocFind fetched e.1).isNone && u.isFollowingUser then some e.1 else none
    | none => none)

/-- The `presenceChangeList` of `social_graph::perform_diff`: presence
records of fetched users already in the map whose `_Compare` reports a
presence delta. (For an id whose slot is null the C++ dereferences the null
`previousUser`; the model reports no delta there.) -/
def diffPresenceChangeList (g : SocialUserGraph)
    (fetched : List (XUID × xbox_social_user)) : List social_manager_presence_record :=
  fetched.filterMap (fun p =>
    match assocFind g p.1 with
    | none => none
    | some c =>
      match c.socialUser with
      | none => none
      | some prev =>
        if (xbox_social_user.compareUser prev p.2).1 then some p.2.presenceRecord else none)

/-- The `profileChangeList` of `social_graph::perform_diff`. -/
def diffProfileChangeList (g : SocialUserGraph)
    (fetched : List (XUID × xbox_social_user)) : List xbox_social_user :=
  fetched.filterMap (fun p =>
    match assocFind g p.1 with
    | none => none
    | some c =>
      match c.socialUser with
      | none => none
      | some prev =>
        if (xbox_social_user.compareUser prev p.2).2.1 then some p.2 else none)

/-- The `socialRelationshipChangeList` of `social_graph::perform_diff`. -/
def diffRelationshipChangeList (g : SocialUserGraph)
    (fetched : List (XUID × xbox_social_user)) : List xbox_social_user :=
  fetched.filterMap (fun p =>
    match assocFind g p.1 with
    | none => none
    | some c =>
      match c.socialUser with
      | none => none
      | some prev =>
        if (xbox_social_user.compareUser prev p.2).2.2 then some p.2 else none)

/-- Translates `social_graph::perform_diff`: bail out on a null inactive
buffer; under `state = diff`, build the five change lists against the
inactive buffer's map and enqueue one internal event per non-empty list
(`users_changed`, `users_removed`, `presence_changed`, `profiles_changed`,
`social_relationships_changed`, in that order); return to `normal`. -/
def social_graph.perform_diff (s : social_graph)
    (xboxSocialUsers : List (XUID × xbox_social_user)) : social_graph :=
  match s.userBuffer.inactiveBuffer? with
  | none => s
  | some _ =>
    let s0 := s.set_state .diff
    let g := s0.inactiveGraph
    let added := diffUsersAddedList g xboxSocialUsers
    let removed := diffUsersRemovedList g xboxSocialUsers
    let pres := diffPresenceChangeList g xboxSocialUsers
    let prof := diffProfileChangeList g xboxSocialUsers
    let rel := diffRelationshipChangeList g xboxSocialUsers
    let s1 := { s0 with internalEventQueue := s0.internalEventQueue
        ++ (if added.isEmpty then [] else [mkUsersChangedEvent added {}])
        ++ (if removed.isEmpty then [] else [mkUsersRemovedEvent removed])
        ++ (if pres.isEmpty then [] else [mkPresenceChangedEvent pres])
        ++ (if prof.isEmpty then [] else [mkProfilesChangedEvent prof])
        ++ (if rel.isEmpty then [] else [mkRelationshipsChangedEvent rel]) }
    s1.set_state .normal

/-- An initialised `social_graph` whose two buffers both hold the graph map
`g` (as `initialize_social_buffers` leaves them), with active = A,
inactive = B, `EXTRA_USER_FREE_SPACE` free slots each, and empty queues. -/
def mkTestState (g : SocialUserGraph) : social_graph :=
  { isInitialized := true,
    socialGraphState := .normal,
    userBuffer :=
      { userBufferA := { socialUserGraph := g, freeDataCount := EXTRA_USER_FREE_SPACE },
        userBufferB := { socialUserGraph := g, freeDataCount := EXTRA_USER_FREE_SPACE },
        buffersSet := true, activeIsA := true } }

/-- The components of a `social_graph` that event application never touches:
initialisation flag, state-machine state, per-frame counter, internal event
queue, buffer pointers, and both buffers' cached-event queues. -/
structure frame_view where
  isInitialized : Bool
  socialGraphState : social_graph_state
  numEventsThisFrame : Nat
  internalEventQueue : List internal_social_event
  buffersSet : Bool
  activeIsA : Bool
  queueA : List internal_social_event
  queueB : List internal_social_event
deriving DecidableEq

/-- Projection onto the `apply_event`-invariant components. -/
def frameView (s : social_graph) : frame_view :=
  ⟨s.isInitialized, s.socialGraphState, s.numEventsThisFrame, s.internalEventQueue,
   s.userBuffer.buffersSet, s.userBuffer.activeIsA,
   s.userBuffer.userBufferA.socialUserEventQueue,
   s.userBuffer.userBufferB.socialUserEventQueue⟩

theorem frameView_updateInactive (s : social_graph) (f : user_buffer → user_buffer)
    (h : ∀ b, (f b).socialUserEventQueue = b.socialUserEventQueue) :
    frameView (s.updateInactive f) = frameView s := by
  unfold social_graph.updateInactive
  by_cases hb : s.userBuffer.buffersSet
  · by_cases ha : s.userBuffer.activeIsA <;> simp [hb, ha, frameView, h]
  · simp [hb]

theorem frameView_setInactiveGraph (s : social_graph) (g : SocialUserGraph) :
    frameView (s.setInactiveGraph g) = frameView s :=
  frameView_updateInactive s _ (fun _ => rfl)

theorem frameView_setInactiveGraphFree (s : social_graph) (g : SocialUserGraph) (n : Nat) :
    frameView (s.setInactiveGraphFree g n) = frameView s :=
  frameView_updateInactive s _ (fun _ => rfl)

theorem frameView_pushSocialEvent (s : social_graph) (e : social_event) :
    frameView (s.pushSocialEvent e) = frameView s := rfl

theorem frameView_resolveTce (s : social_graph) (t e : Nat) :
    frameView (s.resolveTce t e) = frameView s := rfl

theorem frameView_fireRefreshTimer (s : social_graph) (u : List XUID) :
    frameView (s.fireRefreshTimer u) = frameView s := rfl

theorem frameView_firePresenceTimer (s : social_graph) (u : List XUID) :
    frameView (s.firePresenceTimer u) = frameView s := rfl

theorem frameView_subscriptions (s : social_graph) (u : List XUID) :
    frameView (s.setup_device_and_presence_subscriptions u) = frameView s := rfl

theorem frameView_socialEventQueuePush (s : social_graph) (evt : internal_social_event)
    (t : social_event_type) (e : Nat) :
    frameView (s.socialEventQueuePush evt t e) = frameView s := by
  unfold social_graph.socialEventQueuePush
  split
  · rfl
  · rfl

theorem frameView_apply_users_added_event (s : social_graph)
    (evt : internal_social_event) (b : Bool) :
    frameView (s.apply_users_added_event evt b) = frameView s := by
  unfold social_graph.apply_users_added_event social_graph.resolveTce
    social_graph.fireRefreshTimer social_graph.setInactiveGraph
    social_graph.updateInactive
  dsimp only
  repeat' split
  all_goals simp [frameView]

theorem frameView_apply_users_removed_event (s : social_graph)
    (evt : internal_social_event) (b : Bool) :
    frameView (s.apply_users_removed_event evt b).1 = frameView s := by
  unfold social_graph.apply_users_removed_event
  dsimp only
  split
  · exact frameView_setInactiveGraphFree s _ _
  · exact frameView_setInactiveGraphFree s _ _

theorem frameView_apply_users_change_event (s : social_graph)
    (evt : internal_social_event) (b : Bool) :
    frameView (s.apply_users_change_event evt b) = frameView s := by
  unfold social_graph.apply_users_change_event social_graph.resolveTce
    social_graph.socialEventQueuePush social_graph.pushSocialEvent
    social_graph.setup_device_and_presence_subscriptions
    social_graph.setInactiveGraph social_graph.setInactiveGraphFree
    social_graph.updateInactive
  dsimp only
  repeat' split
  all_goals simp [frameView]

theorem frameView_apply_device_presence_changed_event (s : social_graph)
    (evt : internal_social_event) (b : Bool) :
    frameView (s.apply_device_presence_changed_event evt b).1 = frameView s := by
  unfold social_graph.apply_device_presence_changed_event
  dsimp only
  split
  · rfl
  · split
    · rfl
    · split
      · exact frameView_firePresenceTimer s _
      · split
        · exact frameView_setInactiveGraph s _
        · rfl

theorem frameView_apply_presence_changed_event (s : social_graph)
    (evt : internal_social_event) (b : Bool) :
    frameView (s.apply_presence_changed_event evt b) = frameView s := by
  unfold social_graph.apply_presence_changed_event
  dsimp only
  split
  · rw [frameView_pushSocialEvent]; exact frameView_setInactiveGraph s _
  · exact frameView_setInactiveGraph s _

/-- Event application touches only the inactive buffer's graph map and free
list, the public event queue and the ghost logs: the frame-relevant state is
untouched. -/
theorem frameView_wrapped (s x : social_graph) (evt : internal_social_event)
    (t : social_event_type) (b : Bool) (hx : frameView x = frameView s) :
    frameView (if b = true then x.socialEventQueuePush evt t 0 else x) = frameView s := by
  split
  · rw [frameView_socialEventQueuePush]; exact hx
  · exact hx

/-- Event application touches only the inactive buffer's graph map and free
list, the public event queue and the ghost logs: the frame-relevant state
components are untouched. -/
theorem frameView_apply_event (s : social_graph) (evt : internal_social_event)
    (b : Bool) : frameView (s.apply_event evt b) = frameView s := by
  unfold social_graph.apply_event
  split
  · rfl
  · cases htype : evt.eventType <;> dsimp only
    · exact frameView_wrapped s _ evt _ b (frameView_apply_users_added_event s evt b)
    · exact frameView_wrapped s _ evt _ b (frameView_apply_users_change_event s evt b)
    · exact frameView_wrapped s _ evt _ b (frameView_apply_users_removed_event s evt b)
    · exact frameView_wrapped s _ evt _ b (frameView_apply_presence_changed_event s evt b)
    · exact frameView_wrapped s _ evt _ b
        (frameView_apply_device_presence_changed_event s evt b)
    · -- title_presence_changed
      split <;> (repeat' split) <;>
        simp [frameView_socialEventQueuePush, frameView_setInactiveGraph]
    · exact frameView_wrapped s _ evt _ b (frameView_setInactiveGraph s _)
    · exact frameView_wrapped s _ evt _ b (frameView_setInactiveGraph s _)
    · exact frameView_wrapped s _ evt _ b rfl

theorem frameView_drainLoop (evts : List internal_social_event) :
    ∀ s : social_graph, frameView (drainLoop s evts).1 = frameView s := by
  induction evts with
  | nil => intro s; rfl
  | cons e rest ih =>
    intro s
    show frameView (drainLoop (s.apply_event e false) rest).1 = frameView s
    rw [ih (s.apply_event e false), frameView_apply_event]

theorem numEvents_updateInactive (s : social_graph) (f : user_buffer → user_buffer) :
    (s.updateInactive f).numEventsThisFrame = s.numEventsThisFrame := by
  unfold social_graph.updateInactive
  repeat' split
  all_goals rfl

theorem numEvents_userBuffer_add_event (s : social_graph) (evt : internal_social_event) :
    (s.userBuffer_add_event evt).numEventsThisFrame = s.numEventsThisFrame := by
  unfold social_graph.userBuffer_add_event
  repeat' split
  all_goals rfl

theorem numEvents_process_cached_events (s : social_graph) :
    s.process_cached_events.1.numEventsThisFrame = s.numEventsThisFrame := by
  unfold social_graph.process_cached_events
  split
  · rfl
  · next buf heq =>
    dsimp only
    have h1 := congrArg frame_view.numEventsThisFrame
      (frameView_drainLoop buf.socialUserEventQueue
        (s.updateInactive (fun b => { b with socialUserEventQueue := [] })))
    simp only [frameView] at h1
    show (drainLoop _ buf.socialUserEventQueue).1.numEventsThisFrame = s.numEventsThisFrame
    rw [h1, numEvents_updateInactive]

theorem numEvents_process_events (s : social_graph) :
    s.process_events.1.numEventsThisFrame
        = s.numEventsThisFrame + (if s.process_events.2 then 1 else 0)
      ∧ (s.process_events.2 = true → s.numEventsThisFrame < NUM_EVENTS_PER_FRAME) := by
  unfold social_graph.process_events
  dsimp only
  by_cases hc : s.numEventsThisFrame < NUM_EVENTS_PER_FRAME
  · cases hq : s.internalEventQueue with
    | nil => simp
    | cons evt rest =>
      have hcond : (!(evt :: rest).isEmpty
          && decide (s.numEventsThisFrame < NUM_EVENTS_PER_FRAME)) = true := by simp [hc]
      rw [if_pos hcond]
      dsimp only
      rw [hcond]
      simp only [if_true, ite_true]
      refine ⟨?_, fun _ => hc⟩
      have happ := congrArg frame_view.numEventsThisFrame
        (frameView_apply_event
          { s with numEventsThisFrame := s.numEventsThisFrame + 1,
                   internalEventQueue := rest } evt true)
      simp only [frameView] at happ
      rw [numEvents_userBuffer_add_event, happ]
  · have hfalse : decide (s.numEventsThisFrame < NUM_EVENTS_PER_FRAME) = false := by
      simpa using hc
    simp [hfalse]

theorem do_event_work_counter (s : social_graph) :
    s.do_event_work.state.numEventsThisFrame
        = s.numEventsThisFrame + s.do_event_work.freshApplies
      ∧ (s.numEventsThisFrame ≤ NUM_EVENTS_PER_FRAME →
         s.do_event_work.state.numEventsThisFrame ≤ NUM_EVENTS_PER_FRAME) := by
  unfold social_graph.do_event_work
  dsimp only
  split
  · -- cached-event replay: no fresh applies, counter untouched
    have h1 := numEvents_process_cached_events (s.set_state .event_processing)
    constructor
    · rw [h1]; simp [social_graph.set_state]
    · intro h; rw [h1]; exact h
  · split
    · -- process_events, run on the state with `normal` set
      have hpe := numEvents_process_events ((s.set_state .event_processing).set_state .normal)
      have hcnt : ((s.set_state .event_processing).set_state .normal).numEventsThisFrame
          = s.numEventsThisFrame := rfl
      rw [hcnt] at hpe
      constructor
      · simpa using hpe.1
      · intro h
        rw [hpe.1]
        by_cases hb : ((s.set_state .event_processing).set_state .normal).process_events.2 = true
        · have := hpe.2 hb
          simp [hb]
          omega
        · simp at hb
          simp [hb]
          omega
    · exact ⟨rfl, fun h => h⟩

theorem runWorker_counter : ∀ (n : Nat) (s : social_graph),
    (runWorker n s).state.numEventsThisFrame
        = s.numEventsThisFrame + (runWorker n s).freshApplies
      ∧ (s.numEventsThisFrame ≤ NUM_EVENTS_PER_FRAME →
         (runWorker n s).state.numEventsThisFrame ≤ NUM_EVENTS_PER_FRAME) := by
  intro n
  induction n with
  | zero => intro s; exact ⟨rfl, fun h => h⟩
  | succ m ih =>
    intro s
    have h1 := do_event_work_counter s
    have h2 := ih s.do_event_work.state
    show (runWorker m s.do_event_work.state).state.numEventsThisFrame
        = s.numEventsThisFrame
          + (s.do_event_work.freshApplies + (runWorker m s.do_event_work.state).freshApplies)
      ∧ _
    constructor
    · rw [h2.1, h1.1]; omega
    · intro h
      exact h2.2 (h1.2 h)

theorem activeEventQueue_eq (s : social_graph) :
    s.activeEventQueue =
      if s.userBuffer.buffersSet then
        (if s.userBuffer.activeIsA then s.userBuffer.userBufferA.socialUserEventQueue
         else s.userBuffer.userBufferB.socialUserEventQueue)
      else [] := by
  unfold social_graph.activeEventQueue user_buffers_holder.activeBuffer?
  by_cases h1 : s.userBuffer.buffersSet <;> by_cases h2 : s.userBuffer.activeIsA <;>
    simp [h1, h2]

theorem inactiveEventQueue_eq (s : social_graph) :
    s.inactiveEventQueue =
      if s.userBuffer.buffersSet then
        (if s.userBuffer.activeIsA then s.userBuffer.userBufferB.socialUserEventQueue
         else s.userBuffer.userBufferA.socialUserEventQueue)
      else [] := by
  unfold social_graph.inactiveEventQueue user_buffers_holder.inactiveBuffer?
  by_cases h1 : s.userBuffer.buffersSet <;> by_cases h2 : s.userBuffer.activeIsA <;>
    simp [h1, h2]

theorem queues_eq_of_frameView {s1 s2 : social_graph} (h : frameView s1 = frameView s2) :
    s1.activeEventQueue = s2.activeEventQueue
      ∧ s1.inactiveEventQueue = s2.inactiveEventQueue
      ∧ s1.userBuffer.buffersSet = s2.userBuffer.buffersSet
      ∧ s1.internalEventQueue = s2.internalEventQueue := by
  have hb := congrArg frame_view.buffersSet h
  have ha := congrArg frame_view.activeIsA h
  have hqa := congrArg frame_view.queueA h
  have hqb := congrArg frame_view.queueB h
  have hiq := congrArg frame_view.internalEventQueue h
  simp only [frameView] at hb ha hqa hqb hiq
  refine ⟨?_, ?_, hb, hiq⟩
  · rw [activeEventQueue_eq, activeEventQueue_eq, hb, ha, hqa, hqb]
  · rw [inactiveEventQueue_eq, inactiveEventQueue_eq, hb, ha, hqa, hqb]

theorem userBuffer_add_event_queues (s : social_graph) (evt : internal_social_event)
    (hset : s.userBuffer.buffersSet = true) :
    (s.userBuffer_add_event evt).activeEventQueue = s.activeEventQueue ++ [evt]
      ∧ (s.userBuffer_add_event evt).inactiveEventQueue = s.inactiveEventQueue := by
  unfold social_graph.userBuffer_add_event
  by_cases h2 : s.userBuffer.activeIsA <;>
    simp [hset, h2, activeEventQueue_eq, inactiveEventQueue_eq]

/-- The state of the claim that the event worker applies exactly one fresh
internal event per `process_events` call and mirrors it: hypotheses are a
non-empty main queue, a per-frame counter below the bound, and initialised
buffers. This helper spells out the whole effect of one `process_events`
call on the queues. -/
theorem process_events_queues (s : social_graph) (evt : internal_social_event)
    (rest : List internal_social_event)
    (hq : s.internalEventQueue = evt :: rest)
    (hcnt : s.numEventsThisFrame < NUM_EVENTS_PER_FRAME)
    (hset : s.userBuffer.buffersSet = true) :
    s.process_events.1.activeEventQueue = s.activeEventQueue ++ [evt]
      ∧ s.process_events.1.inactiveEventQueue = s.inactiveEventQueue
      ∧ s.process_events.1.internalEventQueue = rest
      ∧ s.process_events.2 = true := by
  unfold social_graph.process_events
  rw [hq]
  dsimp only
  have hcond : (!(evt :: rest).isEmpty
      && decide (s.numEventsThisFrame < NUM_EVENTS_PER_FRAME)) = true := by simp [hcnt]
  rw [if_pos hcond]
  dsimp only
  set s1 : social_graph :=
    { s with numEventsThisFrame := s.numEventsThisFrame + 1,
             internalEventQueue := rest } with hs1
  have hfv := frameView_apply_event s1 evt true
  obtain ⟨hact, hina, hbset, hiq⟩ := queues_eq_of_frameView hfv
  have hset1 : (s1.apply_event evt true).userBuffer.buffersSet = true := by
    rw [hbset]; exact hset
  obtain ⟨hact2, hina2⟩ := userBuffer_add_event_queues (s1.apply_event evt true) evt hset1
  have hact1 : s1.activeEventQueue = s.activeEventQueue := by
    rw [activeEventQueue_eq, activeEventQueue_eq]
  have hina1 : s1.inactiveEventQueue = s.inactiveEventQueue := by
    rw [inactiveEventQueue_eq, inactiveEventQueue_eq]
  refine ⟨?_, ?_, ?_, hcond⟩
  · rw [hact2, hact, hact1]
  · rw [hina2, hina, hina1]
  · have := congrArg frame_view.internalEventQueue
      (frameView_apply_event s1 evt true)
    simp only [frameView] at this
    have hadd : (((s1.apply_event evt true).userBuffer_add_event evt)).internalEventQueue
        = (s1.apply_event evt true).internalEventQueue := by
      unfold social_graph.userBuffer_add_event
      repeat' split
      all_goals rfl
    rw [hadd, this]

/-- An initialised state whose inactive buffer (B) carries six cached replay
events: the situation right after a `do_work` swap with six not-yet-replayed
mirrored events. -/
def c5CachedState : social_graph :=
  { mkTestState [] with userBuffer :=
      { (mkTestState []).userBuffer with userBufferB :=
          { socialUserGraph := [],
            socialUserEventQueue := List.replicate 6 {},
            freeDataCount := EXTRA_USER_FREE_SPACE } } }

/-- Claim C5 as stated: between two consecutive `do_work` returns (the
counter was just reset to `0`; only worker iterations run), at most
`NUM_EVENTS_PER_FRAME` `apply_event` calls occur, regardless of how many
internal events are queued or cached. -/
def claimC5Statement : Prop :=
  ∀ (s : social_graph) (n : Nat), s.numEventsThisFrame = 0 →
    (runWorker n s).totalApplies ≤ NUM_EVENTS_PER_FRAME

/-- C5 counterexample: with six cached replay events on the inactive buffer,
a single `do_event_work` call drains all six through `apply_event`
(`process_cached_events` has no counter check), so six `apply_event` calls
occur between two `do_work` returns. -/
theorem c5_per_frame_bound_counterexample : ¬ claimC5Statement := by
  intro h
  exact absurd (h c5CachedState 1 rfl) (by decide)

/-- C5 (amended): between two consecutive `do_work` returns, at most
`NUM_EVENTS_PER_FRAME = 5` FRESH `apply_event` calls occur — the per-frame
counter is incremented on each fresh event, checked before applying and
reset only by `do_work` — while cached replay events are drained without
bound. -/
theorem c5_fresh_applies_bounded (s : social_graph) (n : Nat)
    (h : s.numEventsThisFrame = 0) :
    (runWorker n s).freshApplies ≤ NUM_EVENTS_PER_FRAME := by
  have hc := runWorker_counter n s
  rw [h] at hc
  have h2 := hc.2 (Nat.zero_le _)
  have h1 := hc.1
  omega

/-- C5 witness: the amended bound evaluated at the six-cached-events state. -/
theorem c5_fresh_applies_bounded_witness :
    c5CachedState.numEventsThisFrame = 0
      ∧ (runWorker 1 c5CachedState).freshApplies ≤ NUM_EVENTS_PER_FRAME :=
  ⟨rfl, c5_fresh_applies_bounded c5CachedState 1 rfl⟩

/-- Claim C2 as stated: when the worker applies a fresh internal event taken
from the main queue, the mirrored copy is pushed onto the INACTIVE buffer's
pending list. -/
def claimC2Statement : Prop :=
  ∀ (s : social_graph) (evt : internal_social_event) (rest : List internal_social_event),
    s.internalEventQueue = evt :: rest →
    s.numEventsThisFrame < NUM_EVENTS_PER_FRAME →
    s.userBuffer.buffersSet = true →
    s.process_events.1.inactiveEventQueue = s.inactiveEventQueue ++ [evt]

/-- A fresh one-event state for exercising `process_events`. -/
def c2State : social_graph :=
  { mkTestState [] with internalEventQueue := [mkUsersAddedEvent [3] 1] }

/-- C2 counterexample: `user_buffers_holder::add_event` pushes to
`m_activeBuffer->socialUserEventQueue`, so after one fresh application the
inactive buffer's pending list is still empty — the mirror went to the
active buffer. -/
theorem c2_mirror_counterexample : ¬ claimC2Statement := by
  intro h
  exact absurd (h c2State (mkUsersAddedEvent [3] 1) [] rfl (by decide) rfl) (by decide)

/-- C2 (amended): the mirrored copy of a freshly applied internal event is
pushed onto the ACTIVE buffer's pending list — the buffer that was NOT just
mutated — which becomes the inactive buffer at the next swap and so carries
the unapplied mirror for replay; the inactive buffer's pending list is
unchanged, and the applied event is consumed from the main queue. -/
theorem c2_mirror_to_active_buffer (s : social_graph) (evt : internal_social_event)
    (rest : List internal_social_event)
    (hq : s.internalEventQueue = evt :: rest)
    (hcnt : s.numEventsThisFrame < NUM_EVENTS_PER_FRAME)
    (hset : s.userBuffer.buffersSet = true) :
    s.process_events.1.activeEventQueue = s.activeEventQueue ++ [evt]
      ∧ s.process_events.1.inactiveEventQueue = s.inactiveEventQueue
      ∧ s.process_events.1.internalEventQueue = rest :=
  let r := process_events_queues s evt rest hq hcnt hset
  ⟨r.1, r.2.1, r.2.2.1⟩

/-- C2 witness: the amended mirroring behaviour evaluated at a concrete
one-event state. -/
theorem c2_mirror_to_active_buffer_witness :
    c2State.internalEventQueue = mkUsersAddedEvent [3] 1 :: []
      ∧ c2State.numEventsThisFrame < NUM_EVENTS_PER_FRAME
      ∧ c2State.userBuffer.buffersSet = true
      ∧ c2State.process_events.1.activeEventQueue
          = c2State.activeEventQueue ++ [mkUsersAddedEvent [3] 1] :=
  ⟨rfl, by decide, rfl,
   (c2_mirror_to_active_buffer c2State (mkUsersAddedEvent [3] 1) [] rfl (by decide) rfl).1⟩

/-- C1: the `do_work` contract. The buffer swap happens exactly when the
state is `normal`, the inactive pointer is non-null and the inactive buffer's
pending list is empty; the returned snapshot pointer is the (post-swap)
active buffer's graph; in `normal` state every queued public event is
appended to the caller's list and the queue is cleared. -/
theorem c1_do_work_swap_and_drain (s : social_graph) (evts : List social_event) :
    ((s.do_work evts).1.userBuffer =
        if s.socialGraphState = .normal ∧ s.userBuffer.inactiveBuffer?.isSome
            ∧ s.inactiveEventQueue.isEmpty
        then s.userBuffer.swap else s.userBuffer)
      ∧ (s.do_work evts).2.2.socialUsers
          = ((s.do_work evts).1.userBuffer.activeBuffer?).map (·.socialUserGraph)
      ∧ (s.socialGraphState = .normal →
          (s.do_work evts).2.1 = evts ++ s.socialEventQueue
            ∧ (s.do_work evts).1.socialEventQueue = []) := by
  unfold social_graph.do_work
  dsimp only
  have hq0 : ({ s with numEventsThisFrame := 0 } : social_graph).inactiveEventQueue
      = s.inactiveEventQueue := rfl
  by_cases h1 : s.socialGraphState = .normal
  · have hcond : (decide (({ s with numEventsThisFrame := 0 } :
          social_graph).socialGraphState = social_graph_state.normal)
        && ({ s with numEventsThisFrame := 0 } :
          social_graph).userBuffer.inactiveBuffer?.isSome
        && ({ s with numEventsThisFrame := 0 } : social_graph).inactiveEventQueue.isEmpty)
        = (s.userBuffer.inactiveBuffer?.isSome && s.inactiveEventQueue.isEmpty) := by
      show (decide (s.socialGraphState = social_graph_state.normal)
          && s.userBuffer.inactiveBuffer?.isSome && s.inactiveEventQueue.isEmpty) = _
      simp [h1]
    rw [hcond]
    by_cases h2 : (s.userBuffer.inactiveBuffer?.isSome && s.inactiveEventQueue.isEmpty) = true
    · rw [if_pos h2]
      have h2' := (Bool.and_eq_true _ _).mp h2
      have hpcond : (s.socialGraphState = social_graph_state.normal
          ∧ s.userBuffer.inactiveBuffer?.isSome ∧ s.inactiveEventQueue.isEmpty) :=
        ⟨h1, h2'.1, h2'.2⟩
      rw [if_pos hpcond]
      refine ⟨?_, ?_, ?_⟩
      · split <;> rfl
      · split <;> rfl
      · intro _
        split
        · next hd =>
          constructor
          · rfl
          · rfl
        · next hd =>
          have : s.socialEventQueue.isEmpty = true := by
            by_contra hne
            exact hd (by simp [h1, Bool.not_eq_true] at hne ⊢; simpa using hne)
          constructor
          · rw [List.isEmpty_iff] at this
            rw [this, List.append_nil]
          · rw [List.isEmpty_iff] at this
            exact this
    · rw [if_neg h2]
      have hpcond : ¬ (s.socialGraphState = social_graph_state.normal
          ∧ s.userBuffer.inactiveBuffer?.isSome ∧ s.inactiveEventQueue.isEmpty) := by
        intro hp
        exact h2 (by simp [hp.2.1, hp.2.2])
      rw [if_neg hpcond]
      refine ⟨?_, ?_, ?_⟩
      · split <;> rfl
      · split <;> rfl
      · intro _
        split
        · next hd =>
          constructor
          · rfl
          · rfl
        · next hd =>
          have : s.socialEventQueue.isEmpty = true := by
            by_contra hne
            exact hd (by simp [h1, Bool.not_eq_true] at hne ⊢; simpa using hne)
          constructor
          · rw [List.isEmpty_iff] at this
            rw [this, List.append_nil]
          · rw [List.isEmpty_iff] at this
            exact this
  · have hcond : (decide (({ s with numEventsThisFrame := 0 } :
          social_graph).socialGraphState = social_graph_state.normal)
        && ({ s with numEventsThisFrame := 0 } :
          social_graph).userBuffer.inactiveBuffer?.isSome
        && ({ s with numEventsThisFrame := 0 } : social_graph).inactiveEventQueue.isEmpty)
        = false := by
      show (decide (s.socialGraphState = social_graph_state.normal) && _ && _) = false
      simp [h1]
    rw [hcond]
    have hpcond : ¬ (s.socialGraphState = social_graph_state.normal
        ∧ s.userBuffer.inactiveBuffer?.isSome ∧ s.inactiveEventQueue.isEmpty) := by
      intro hp; exact h1 hp.1
    rw [if_neg hpcond]
    simp only [Bool.false_eq_true, if_false]
    have hdrain : (!s.socialEventQueue.isEmpty
        && decide (s.socialGraphState = social_graph_state.normal)) = false := by
      simp [h1]
    rw [hdrain]
    simp only [Bool.false_eq_true, if_false]
    exact ⟨trivial, trivial, fun hn => absurd hn h1⟩

/-- A state with one queued public event, for exercising the `do_work`
drain. -/
def c1State : social_graph :=
  { mkTestState [] with socialEventQueue := [⟨.presence_changed, [9], 0⟩] }

/-- C1 witness: the `do_work` contract evaluated at a concrete state in
`normal` state with one queued public event. -/
theorem c1_do_work_swap_and_drain_witness :
    (c1State.do_work []).2.1 = [] ++ c1State.socialEventQueue
      ∧ (c1State.do_work []).1.socialEventQueue = [] :=
  (c1_do_work_swap_and_drain c1State []).2.2 rfl

theorem inactiveBuffer_some_of_set (s : social_graph)
    (hset : s.userBuffer.buffersSet = true) :
    s.userBuffer.inactiveBuffer?
      = some (if s.userBuffer.activeIsA then s.userBuffer.userBufferB
              else s.userBuffer.userBufferA) := by
  unfold user_buffers_holder.inactiveBuffer?
  rw [hset]
  simp

/-- The error path of `apply_users_change_event`, seen through `apply_event`:
for a `users_changed` event carrying an error and a non-null completion
context, the whole application reduces to one promise resolution followed by
one public error event push, regardless of `is_fresh`. -/
theorem apply_event_users_changed_error (s : social_graph)
    (evt : internal_social_event) (b : Bool)
    (hset : s.userBuffer.buffersSet = true)
    (htype : evt.eventType = .users_changed)
    (herr : evt.error ≠ 0)
    (hctx : evt.completionContext.isNull = false) :
    s.apply_event evt b
      = (s.resolveTce evt.completionContext.tceId evt.error).pushSocialEvent
          { eventType := .users_added_to_social_graph,
            usersAffected := evt.usersAffectedStr, err := evt.error } := by
  unfold social_graph.apply_event
  rw [inactiveBuffer_some_of_set s hset]
  dsimp only
  rw [htype]
  dsimp only
  unfold social_graph.apply_users_change_event
  rw [hctx]
  simp only [Bool.false_eq_true, if_false]
  rw [if_pos herr]
  unfold social_graph.socialEventQueuePush
  have hne : ¬ (social_event_type.users_added_to_social_graph = social_event_type.unknown) :=
    by decide
  rw [if_neg hne]
  split
  · have hu : (social_event_type.unknown = social_event_type.unknown) := rfl
    rw [if_pos hu]
  · rfl

/-- C6: a `UsersChanged` event carrying a fetch error resolves the attached
completion promise with that error, emits one public
`users_added_to_social_graph` event carrying the error, and leaves the
buffers (in particular every graph map) untouched. -/
theorem c6_users_change_error (s : social_graph) (evt : internal_social_event)
    (b : Bool)
    (hset : s.userBuffer.buffersSet = true)
    (htype : evt.eventType = .users_changed)
    (herr : evt.error ≠ 0)
    (hctx : evt.completionContext.isNull = false) :
    (s.apply_event evt b).tceResolutions
        = s.tceResolutions ++ [(evt.completionContext.tceId, evt.error)]
      ∧ (s.apply_event evt b).socialEventQueue
          = s.socialEventQueue ++ [{ eventType := .users_added_to_social_graph,
                                     usersAffected := evt.usersAffectedStr,
                                     err := evt.error }]
      ∧ (s.apply_event evt b).userBuffer = s.userBuffer := by
  rw [apply_event_users_changed_error s evt b hset htype herr hctx]
  exact ⟨rfl, rfl, rfl⟩

/-- The failed-fetch `users_changed` event used in the witnesses: ids
`[200]`, error code `5`, completion promise `7`. -/
def c6ErrEvt : internal_social_event :=
  mkUsersChangedErrorEvent [200] 5 { isNull := false, numObjects := 1, tceId := 7 }

/-- C6 witness: the error contract evaluated at a concrete state and event. -/
theorem c6_users_change_error_witness :
    (mkTestState []).userBuffer.buffersSet = true
      ∧ c6ErrEvt.eventType = .users_changed
      ∧ c6ErrEvt.error ≠ 0
      ∧ c6ErrEvt.completionContext.isNull = false
      ∧ ((mkTestState []).apply_event c6ErrEvt true).tceResolutions = [] ++ [(7, 5)] :=
  ⟨rfl, rfl, by decide, rfl,
   (c6_users_change_error (mkTestState []) c6ErrEvt true rfl rfl (by decide) rfl).1⟩

/-- The tracked, slot-holding user driven to `ref_count = 0` in C4. -/
def c4User : xbox_social_user := { xboxUserId := 1, isFollowingUser := true }

/-- A state tracking user 1 with `ref_count = 1` and an occupied slot. -/
def c4State : social_graph := mkTestState [(1, { socialUser := some c4User, refCount := 1 })]

/-- C4: applying a fresh `UsersRemoved([1])` at `ref_count = 1` reclaims the
slot to the free list, removes the id from the map and emits exactly one
public `users_removed_from_social_graph` event — but performs ZERO presence
unsubscribes: `unsubscribe_users` spawns its task with a default-constructed
(never assigned) `weak_ptr`, so the lock inside the task yields null and the
teardown is silently skipped, contradicting the claim's "exactly one
device-presence unsubscribe plus one title-presence unsubscribe". -/
theorem c4_unsubscribe_never_issued :
    assocFind (c4State.apply_event (mkUsersRemovedEvent [1]) true).inactiveGraph 1 = none
      ∧ (c4State.apply_event (mkUsersRemovedEvent [1]) true).inactiveFreeCount
          = EXTRA_USER_FREE_SPACE + 1
      ∧ (c4State.apply_event (mkUsersRemovedEvent [1]) true).socialEventQueue
          = [{ eventType := .users_removed_from_social_graph, usersAffected := [1], err := 0 }]
      ∧ (c4State.apply_event (mkUsersRemovedEvent [1]) true).unsubscribeCalls = [] := by
  decide

/-- The start state of the C10 trace: an initialised graph `g` and one queued
failed-fetch `users_changed` event (ids `ids`, error `err`, promise `tid`). -/
def c10Start (g : SocialUserGraph) (ids : List XUID) (err tid : Nat) : social_graph :=
  { mkTestState g with internalEventQueue :=
      [mkUsersChangedErrorEvent ids err
        { isNull := false, numObjects := ids.length, tceId := tid }] }

set_option maxHeartbeats 2000000 in
/-- C10: a single failed `add_users` fetch makes the application observe the
`users_added_to_social_graph` error event twice and the completion promise
resolved twice. The fresh application pushes the public error event (the
push in `apply_users_change_event` is not gated on `is_fresh`) and the event
is mirrored for replay; after the swap, the cached replay pushes the same
public error event again and re-resolves the same promise. The two `do_work`
frames each hand the application one copy of the error event. -/
theorem c10_error_event_observed_twice (g : SocialUserGraph) (ids : List XUID)
    (err tid : Nat) (herr : err ≠ 0) :
    ((c10Start g ids err tid).do_event_work.state.do_work []).2.1
        = [{ eventType := .users_added_to_social_graph, usersAffected := ids, err := err }]
      ∧ ((((c10Start g ids err tid).do_event_work.state.do_work
            []).1.do_event_work.state.do_work []).2.1)
          = [{ eventType := .users_added_to_social_graph, usersAffected := ids, err := err }]
      ∧ ((((c10Start g ids err tid).do_event_work.state.do_work
            []).1.do_event_work.state.do_work []).1.tceResolutions)
          = [(tid, err), (tid, err)] := by
  obtain ⟨e1, rfl⟩ : ∃ e1, err = e1 + 1 := ⟨err - 1, by omega⟩
  refine ⟨?_, ?_, ?_⟩
  · rfl
  · rfl
  · rfl

/-- C10 witness: the double emission evaluated at concrete inputs. -/
theorem c10_error_event_observed_twice_witness :
    (5 : Nat) ≠ 0
      ∧ ((c10Start [] [200] 5 7).do_event_work.state.do_work []).2.1
          = [{ eventType := .users_added_to_social_graph, usersAffected := [200], err := 5 }] :=
  ⟨by decide, (c10_error_event_observed_twice [] [200] 5 7 (by decide)).1⟩

theorem socialEventQueue_pushSocialEvent (s : social_graph) (e : social_event) :
    (s.pushSocialEvent e).socialEventQueue = s.socialEventQueue ++ [e] := rfl

theorem inactiveGraph_pushSocialEvent (s : social_graph) (e : social_event) :
    (s.pushSocialEvent e).inactiveGraph = s.inactiveGraph := rfl

theorem presenceTimerFires_pushSocialEvent (s : social_graph) (e : social_event) :
    (s.pushSocialEvent e).presenceTimerFires = s.presenceTimerFires := rfl

theorem inactiveGraph_setInactiveGraph (s : social_graph) (g : SocialUserGraph)
    (hset : s.userBuffer.buffersSet = true) :
    (s.setInactiveGraph g).inactiveGraph = g := by
  unfold social_graph.setInactiveGraph social_graph.updateInactive
    social_graph.inactiveGraph user_buffers_holder.inactiveBuffer?
  by_cases ha : s.userBuffer.activeIsA <;> simp [hset, ha]

theorem updateInactive_misc (s : social_graph) (f : user_buffer → user_buffer) :
    (s.updateInactive f).socialEventQueue = s.socialEventQueue
      ∧ (s.updateInactive f).presenceTimerFires = s.presenceTimerFires
      ∧ (s.updateInactive f).tceResolutions = s.tceResolutions
      ∧ (s.updateInactive f).refreshTimerFires = s.refreshTimerFires
      ∧ (s.updateInactive f).unsubscribeCalls = s.unsubscribeCalls
      ∧ (s.updateInactive f).subscribeCalls = s.subscribeCalls := by
  unfold social_graph.updateInactive
  repeat' split
  all_goals exact ⟨rfl, rfl, rfl, rfl, rfl, rfl⟩

theorem socialEventQueue_setInactiveGraph (s : social_graph) (g : SocialUserGraph) :
    (s.setInactiveGraph g).socialEventQueue = s.socialEventQueue :=
  (updateInactive_misc s _).1

theorem presenceTimerFires_setInactiveGraph (s : social_graph) (g : SocialUserGraph) :
    (s.setInactiveGraph g).presenceTimerFires = s.presenceTimerFires :=
  (updateInactive_misc s _).2.1

/-- The context written back by the inline-update path of
`apply_device_presence_changed_event`: the stored user's presence record with
the device flag updated. -/
def deviceUpdatedContext (c : xbox_social_user_context) (u : xbox_social_user)
    (args : device_presence_change_event_args) : xbox_social_user_context :=
  let u1 := { u with presenceRecord :=
    u.presenceRecord.updateDevice args.deviceType args.isUserLoggedOnDevice }
  { c with socialUser := some u1 }

/-- Claim C7 as stated: for every `DevicePresenceChanged` event applied to a
user present in the graph (occupied slot), if the stored record has more than
one title record or the event reports logged-on, the presence refresh timer
fires (for a fresh event) and the record is untouched; OTHERWISE the device
flag is updated inline and a public `presence_changed` event is emitted
(with no freshness qualification). -/
def claimC7Statement : Prop :=
  ∀ (s : social_graph) (args : device_presence_change_event_args) (b : Bool)
    (c : xbox_social_user_context) (u : xbox_social_user),
    s.userBuffer.buffersSet = true →
    assocFind s.inactiveGraph args.xboxUserId = some c →
    c.socialUser = some u →
    ((decide (u.presenceRecord.presenceTitleRecords.length > 1)
        || args.isUserLoggedOnDevice) = true →
      (s.apply_event (mkDevicePresenceEvent args) b).inactiveGraph = s.inactiveGraph
        ∧ (b = true →
           (s.apply_event (mkDevicePresenceEvent args) b).presenceTimerFires
             = s.presenceTimerFires ++ [[args.xboxUserId]]))
    ∧ ((decide (u.presenceRecord.presenceTitleRecords.length > 1)
        || args.isUserLoggedOnDevice) = false →
      (s.apply_event (mkDevicePresenceEvent args) b).inactiveGraph
          = graphSet s.inactiveGraph args.xboxUserId (deviceUpdatedContext c u args)
        ∧ (s.apply_event (mkDevicePresenceEvent args) b).socialEventQueue
            = s.socialEventQueue
              ++ [{ eventType := .presence_changed,
                    usersAffected := [args.xboxUserId], err := 0 }])

/-- The C7 user: one (zero-title) presence record, so a not-logged-on device
event takes the inline-update path. -/
def c7User : xbox_social_user := { xboxUserId := 4 }

/-- The C7 device event args: user 4, device 2, not logged on. -/
def c7Args : device_presence_change_event_args :=
  { xboxUserId := 4, deviceType := 2, isUserLoggedOnDevice := false }

/-- A state tracking user 4 with an occupied slot. -/
def c7State : social_graph :=
  mkTestState [(4, { socialUser := some c7User, refCount := 1 })]

/-- C7 counterexample: a CACHED (`is_fresh = false`) device-presence event on
the inline-update path updates the stored record but emits no public
`presence_changed` event (`apply_event` pushes to the public queue only for
fresh events), refuting the claim's unqualified "a presence_changed public
event is emitted". -/
theorem c7_device_presence_counterexample : ¬ claimC7Statement := by
  intro h
  have h2 := ((h c7State c7Args false { socialUser := some c7User, refCount := 1 } c7User
      rfl (by decide) rfl).2 (by decide)).2
  exact absurd h2 (by decide)

/-- C7 (amended): for a `DevicePresenceChanged` event applied to a user with
an occupied slot — if the stored record has more than one title record
(`deviceRecordSize` in the source counts `presence_title_records()`) or the
event reports the user logged on, a FRESH event fires the presence refresh
timer and nothing else changes (a cached one changes nothing at all), and the
stored record is not modified; otherwise the device flag is updated inline
and, only when the event is fresh, a public `presence_changed` event is
emitted. -/
theorem c7_device_presence_spec (s : social_graph)
    (args : device_presence_change_event_args) (b : Bool)
    (c : xbox_social_user_context) (u : xbox_social_user)
    (hset : s.userBuffer.buffersSet = true)
    (hfind : assocFind s.inactiveGraph args.xboxUserId = some c)
    (huser : c.socialUser = some u) :
    ((decide (u.presenceRecord.presenceTitleRecords.length > 1)
        || args.isUserLoggedOnDevice) = true →
      (s.apply_event (mkDevicePresenceEvent args) b).inactiveGraph = s.inactiveGraph
        ∧ (s.apply_event (mkDevicePresenceEvent args) b).socialEventQueue
            = s.socialEventQueue
        ∧ (s.apply_event (mkDevicePresenceEvent args) b).presenceTimerFires
            = s.presenceTimerFires ++ (if b then [[args.xboxUserId]] else []))
    ∧ ((decide (u.presenceRecord.presenceTitleRecords.length > 1)
        || args.isUserLoggedOnDevice) = false →
      (s.apply_event (mkDevicePresenceEvent args) b).inactiveGraph
          = graphSet s.inactiveGraph args.xboxUserId (deviceUpdatedContext c u args)
        ∧ (s.apply_event (mkDevicePresenceEvent args) b).socialEventQueue
            = s.socialEventQueue
              ++ (if b then [({ eventType := .presence_changed,
                                usersAffected := [args.xboxUserId], err := 0 }
                      : social_event)] else [])
        ∧ (s.apply_event (mkDevicePresenceEvent args) b).presenceTimerFires
            = s.presenceTimerFires) := by
  unfold social_graph.apply_event mkDevicePresenceEvent
  rw [inactiveBuffer_some_of_set s hset]
  dsimp only
  unfold social_graph.apply_device_presence_changed_event
  dsimp only
  rw [hfind]
  dsimp only
  rw [huser]
  dsimp only
  constructor
  · intro hfire
    rw [hfire]
    cases b with
    | true =>
      simp only [Bool.and_self, if_true, ite_true]
      unfold social_graph.socialEventQueuePush
      rw [if_pos rfl]
      refine ⟨rfl, rfl, ?_⟩
      simp [social_graph.firePresenceTimer]
    | false =>
      simp only [Bool.and_false, Bool.false_eq_true, if_false, Bool.not_true, ite_false]
      refine ⟨by trivial, by trivial, ?_⟩
      simp
  · intro hfire
    rw [hfire]
    simp only [Bool.false_and, Bool.false_eq_true, if_false, Bool.not_false, if_true, ite_true]
    cases b with
    | true =>
      unfold social_graph.socialEventQueuePush
      have hne : ¬ (social_event_type.presence_changed = social_event_type.unknown) := by
        decide
      rw [if_pos rfl, if_neg hne]
      refine ⟨?_, ?_, ?_⟩
      · rw [inactiveGraph_pushSocialEvent]
        exact inactiveGraph_setInactiveGraph s _ hset
      · rw [socialEventQueue_pushSocialEvent, socialEventQueue_setInactiveGraph]
        simp [deviceUpdatedContext]
      · rw [presenceTimerFires_pushSocialEvent, presenceTimerFires_setInactiveGraph]
    | false =>
      simp only [Bool.false_eq_true, if_false]
      refine ⟨?_, ?_, ?_⟩
      · exact inactiveGraph_setInactiveGraph s _ hset
      · rw [socialEventQueue_setInactiveGraph]; simp
      · exact presenceTimerFires_setInactiveGraph s _

/-- C7 witness: the amended behaviour evaluated at the inline-update path
with a fresh event. -/
theorem c7_device_presence_spec_witness :
    c7State.userBuffer.buffersSet = true
      ∧ assocFind c7State.inactiveGraph c7Args.xboxUserId
          = some { socialUser := some c7User, refCount := 1 }
      ∧ (c7State.apply_event (mkDevicePresenceEvent c7Args) true).socialEventQueue
          = c7State.socialEventQueue
            ++ (if true then [({ eventType := .presence_changed,
                                 usersAffected := [c7Args.xboxUserId], err := 0 }
                    : social_event)] else []) :=
  ⟨rfl, by decide,
   ((c7_device_presence_spec c7State c7Args true
        { socialUser := some c7User, refCount := 1 } c7User
        rfl (by decide) rfl).2 (by decide)).2.1⟩

theorem diffUsersAddedList_mem (g : SocialUserGraph)
    (fetched : List (XUID × xbox_social_user))
    (hkeys : ∀ p ∈ fetched, p.2.xboxUserId = p.1) (id : XUID) :
    (∃ u, u ∈ diffUsersAddedList g fetched ∧ u.xboxUserId = id)
      ↔ ((∃ u, (id, u) ∈ fetched) ∧ assocFind g id = none) := by
  induction fetched with
  | nil => simp [diffUsersAddedList]
  | cons p rest ih =>
    have hkr : ∀ q ∈ rest, q.2.xboxUserId = q.1 :=
      fun q hq => hkeys q (List.mem_cons_of_mem p hq)
    have hkp : p.2.xboxUserId = p.1 := hkeys p (List.mem_cons_self p rest)
    by_cases hfind : (assocFind g p.1).isNone = true
    · have hstep : diffUsersAddedList g (p :: rest)
          = p.2 :: diffUsersAddedList g rest := by
        have hfind' := Option.isNone_iff_eq_none.mp hfind
        simp [diffUsersAddedList, List.filterMap_cons, hfind']
      rw [hstep]
      constructor
      · rintro ⟨u, hu, rfl⟩
        rcases List.mem_cons.mp hu with h | h
        · subst h
          rw [hkp]
          refine ⟨⟨p.2, ?_⟩, Option.isNone_iff_eq_none.mp hfind⟩
          have : p = (p.1, p.2) := rfl
          rw [← this]
          exact List.mem_cons_self p rest
        · obtain ⟨hmem, hnone⟩ := (ih hkr).mp ⟨u, h, rfl⟩
          exact ⟨⟨hmem.choose, List.mem_cons_of_mem p hmem.choose_spec⟩, hnone⟩
      · rintro ⟨⟨u, hu⟩, hnone⟩
        rcases List.mem_cons.mp hu with h | h
        · refine ⟨p.2, List.mem_cons_self _ _, ?_⟩
          rw [hkp]
          have : p.1 = id := congrArg Prod.fst h.symm
          exact this
        · obtain ⟨u', hu', hid⟩ := (ih hkr).mpr ⟨⟨u, h⟩, hnone⟩
          exact ⟨u', List.mem_cons_of_mem _ hu', hid⟩
    · have hstep : diffUsersAddedList g (p :: rest) = diffUsersAddedList g rest := by
        have hfind' : ¬ assocFind g p.1 = none := fun h => hfind (by simp [h])
        simp [diffUsersAddedList, List.filterMap_cons, hfind']
      rw [hstep, ih hkr]
      constructor
      · rintro ⟨⟨u, hu⟩, hnone⟩
        exact ⟨⟨u, List.mem_cons_of_mem p hu⟩, hnone⟩
      · rintro ⟨⟨u, hu⟩, hnone⟩
        rcases List.mem_cons.mp hu with h | h
        · exfalso
          have hids : p.1 = id := congrArg Prod.fst h.symm
          rw [hids] at hfind
          rw [hnone] at hfind
          simp at hfind
        · exact ⟨⟨u, h⟩, hnone⟩

theorem diffUsersRemovedList_mem (g : SocialUserGraph)
    (fetched : List (XUID × xbox_social_user)) (id : XUID) :
    id ∈ diffUsersRemovedList g fetched
      ↔ ∃ c, (id, c) ∈ g ∧ assocFind fetched id = none
          ∧ ∃ u, c.socialUser = some u ∧ u.isFollowingUser = true := by
  induction g with
  | nil => simp [diffUsersRemovedList]
  | cons e rest ih =>
    cases hsu : e.2.socialUser with
    | none =>
      have hstep : diffUsersRemovedList (e :: rest) fetched
          = diffUsersRemovedList rest fetched := by
        simp [diffUsersRemovedList, List.filterMap_cons, hsu]
      rw [hstep, ih]
      constructor
      · rintro ⟨c, hc, hnone, u, hcu, hf⟩
        exact ⟨c, List.mem_cons_of_mem e hc, hnone, u, hcu, hf⟩
      · rintro ⟨c, hc, hnone, u, hcu, hf⟩
        rcases List.mem_cons.mp hc with h | h
        · exfalso
          have : e.2 = c := congrArg Prod.snd h.symm
          rw [this, hcu] at hsu
          exact Option.noConfusion hsu
        · exact ⟨c, h, hnone, u, hcu, hf⟩
    | some u0 =>
      by_cases hcond : ((assocFind fetched e.1).isNone && u0.isFollowingUser) = true
      · have hstep : diffUsersRemovedList (e :: rest) fetched
            = e.1 :: diffUsersRemovedList rest fetched := by
          simp only [diffUsersRemovedList, List.filterMap_cons, hsu, hcond, if_true, ite_true]
        rw [hstep]
        have hc2 := (Bool.and_eq_true _ _).mp hcond
        constructor
        · intro hmem
          rcases List.mem_cons.mp hmem with h | h
          · subst h
            refine ⟨e.2, ?_, Option.isNone_iff_eq_none.mp hc2.1, u0, hsu, hc2.2⟩
            have : e = (e.1, e.2) := rfl
            rw [← this]
            exact List.mem_cons_self e rest
          · obtain ⟨c, hc, hnone, u, hcu, hf⟩ := ih.mp h
            exact ⟨c, List.mem_cons_of_mem e hc, hnone, u, hcu, hf⟩
        · rintro ⟨c, hc, hnone, u, hcu, hf⟩
          rcases List.mem_cons.mp hc with h | h
          · have : e.1 = id := congrArg Prod.fst h.symm
            rw [← this]
            exact List.mem_cons_self _ _
          · exact List.mem_cons_of_mem _ (ih.mpr ⟨c, h, hnone, u, hcu, hf⟩)
      · have hstep : diffUsersRemovedList (e :: rest) fetched
            = diffUsersRemovedList rest fetched := by
          simp only [diffUsersRemovedList, List.filterMap_cons, hsu, hcond,
            Bool.false_eq_true, if_false, ite_false]
        rw [hstep, ih]
        constructor
        · rintro ⟨c, hc, hnone, u, hcu, hf⟩
          exact ⟨c, List.mem_cons_of_mem e hc, hnone, u, hcu, hf⟩
        · rintro ⟨c, hc, hnone, u, hcu, hf⟩
          rcases List.mem_cons.mp hc with h | h
          · exfalso
            have h1 : e.1 = id := congrArg Prod.fst h.symm
            have h2 : e.2 = c := congrArg Prod.snd h.symm
            rw [h2, hcu] at hsu
            have hu0 : u = u0 := Option.some.inj hsu
            apply hcond
            rw [h1]
            simp [hnone, ← hu0, hf]
          · exact ⟨c, h, hnone, u, hcu, hf⟩

/-- C8: the full-refresh diff. The `users_changed` list contains exactly the
fetched users whose id is absent from the inactive buffer's map; the
`users_removed` list contains exactly the ids present in the inactive
buffer's map, absent from the fetched map, whose stored slot is non-null
with `is_following_user` true; `perform_diff` enqueues one internal event
per non-empty diff list. -/
theorem c8_perform_diff_lists (s : social_graph)
    (fetched : List (XUID × xbox_social_user))
    (hset : s.userBuffer.buffersSet = true)
    (hkeys : ∀ p ∈ fetched, p.2.xboxUserId = p.1) :
    (∀ id, (∃ u, u ∈ diffUsersAddedList s.inactiveGraph fetched ∧ u.xboxUserId = id)
        ↔ ((∃ u, (id, u) ∈ fetched) ∧ assocFind s.inactiveGraph id = none))
      ∧ (∀ id, id ∈ diffUsersRemovedList s.inactiveGraph fetched
        ↔ ∃ c, (id, c) ∈ s.inactiveGraph ∧ assocFind fetched id = none
            ∧ ∃ u, c.socialUser = some u ∧ u.isFollowingUser = true)
      ∧ (s.perform_diff fetched).internalEventQueue
          = s.internalEventQueue
            ++ (if (diffUsersAddedList s.inactiveGraph fetched).isEmpty then []
                else [mkUsersChangedEvent (diffUsersAddedList s.inactiveGraph fetched) {}])
            ++ (if (diffUsersRemovedList s.inactiveGraph fetched).isEmpty then []
                else [mkUsersRemovedEvent (diffUsersRemovedList s.inactiveGraph fetched)])
            ++ (if (diffPresenceChangeList s.inactiveGraph fetched).isEmpty then []
                else [mkPresenceChangedEvent (diffPresenceChangeList s.inactiveGraph fetched)])
            ++ (if (diffProfileChangeList s.inactiveGraph fetched).isEmpty then []
                else [mkProfilesChangedEvent (diffProfileChangeList s.inactiveGraph fetched)])
            ++ (if (diffRelationshipChangeList s.inactiveGraph fetched).isEmpty then []
                else [mkRelationshipsChangedEvent
                        (diffRelationshipChangeList s.inactiveGraph fetched)]) := by
  refine ⟨fun id => diffUsersAddedList_mem s.inactiveGraph fetched hkeys id,
          fun id => diffUsersRemovedList_mem s.inactiveGraph fetched id, ?_⟩
  unfold social_graph.perform_diff
  rw [inactiveBuffer_some_of_set s hset]
  rfl

/-- The fetched map of the C8 witness: PeopleHub returned only user 10. -/
def c8Fetched : List (XUID × xbox_social_user) := [(10, { xboxUserId := 10 })]

/-- The inactive graph of the C8 witness: a followed user 11 about to vanish. -/
def c8Graph : SocialUserGraph :=
  [(11, { socialUser := some { xboxUserId := 11, isFollowingUser := true }, refCount := 1 })]

/-- C8 witness: the diff lists evaluated at a fetch that adds user 10 and
drops followed user 11. -/
theorem c8_perform_diff_lists_witness :
    (mkTestState c8Graph).userBuffer.buffersSet = true
      ∧ (∀ p ∈ c8Fetched, p.2.xboxUserId = p.1)
      ∧ ((mkTestState c8Graph).perform_diff c8Fetched).internalEventQueue
          = [] ++ [mkUsersChangedEvent [{ xboxUserId := 10 }] {}]
            ++ [mkUsersRemovedEvent [11]] ++ [] ++ [] ++ [] :=
  ⟨rfl, by decide,
   (c8_perform_diff_lists (mkTestState c8Graph) c8Fetched rfl (by decide)).2.2⟩

theorem addPhase1_all_absent : ∀ (ids : List XUID) (g : SocialUserGraph),
    (∀ id ∈ ids, assocFind g id = none) → addPhase1 g ids = (g, ids) := by
  intro ids
  induction ids with
  | nil => intro g _; rfl
  | cons a rest ih =>
    intro g h
    have ha := h a (List.mem_cons_self a rest)
    have hr := ih g (fun id hid => h id (List.mem_cons_of_mem a hid))
    simp [addPhase1, ha, hr]

/-- The fresh-slot context written by the second loop of
`apply_users_added_event`: empty slot, `refCount = 1`. -/
def newUserContext : xbox_social_user_context := { socialUser := none, refCount := 1 }

theorem insertNewUsers_append : ∀ (ids : List XUID) (g : SocialUserGraph),
    ids.Nodup → (∀ id ∈ ids, assocFind g id = none) →
    insertNewUsers g ids = g ++ ids.map (fun id => (id, newUserContext)) := by
  intro ids
  induction ids with
  | nil => intro g _ _; simp [insertNewUsers]
  | cons a rest ih =>
    intro g hnd h
    obtain ⟨hna, hndr⟩ := List.nodup_cons.mp hnd
    have ha := h a (List.mem_cons_self a rest)
    show insertNewUsers (graphSet g a newUserContext) rest = _
    rw [graphSet_of_find_none g a _ ha]
    rw [ih (g ++ [(a, newUserContext)]) hndr ?side]
    · simp
    case side =>
      intro id hid
      rw [assocFind_append, h id (List.mem_cons_of_mem a hid)]
      have : a ≠ id := fun he => hna (he ▸ hid)
      simp [assocFind, this]

theorem decU32_one : decU32 1 = 0 := by decide

theorem removeLoop_roundtrip : ∀ (ids : List XUID) (g : SocialUserGraph),
    ids.Nodup → (∀ id ∈ ids, assocFind g id = none) →
    (removeLoop (g ++ ids.map (fun id => (id, newUserContext))) ids).1 = g
      ∧ (removeLoop (g ++ ids.map (fun id => (id, newUserContext))) ids).2.1 = [] := by
  intro ids
  induction ids with
  | nil => intro g _ _; simp [removeLoop]
  | cons a rest ih =>
    intro g hnd h
    obtain ⟨hna, hndr⟩ := List.nodup_cons.mp hnd
    have ha := h a (List.mem_cons_self a rest)
    have hfind : assocFind (g ++ (a, newUserContext) :: rest.map
        (fun id => (id, newUserContext))) a = some newUserContext := by
      rw [assocFind_append, ha]
      simp [assocFind]
    have hgs : graphSet (g ++ (a, newUserContext) :: rest.map
          (fun id => (id, newUserContext))) a
          ({ socialUser := none, refCount := 0 } : xbox_social_user_context)
        = g ++ (a, ({ socialUser := none, refCount := 0 }
            : xbox_social_user_context)) :: rest.map (fun id => (id, newUserContext)) :=
      graphSet_append_head g _ a _ _ ha
    have herase : graphErase (g ++ (a, ({ socialUser := none, refCount := 0 }
          : xbox_social_user_context)) :: rest.map (fun id => (id, newUserContext))) a
        = g ++ rest.map (fun id => (id, newUserContext)) := by
      rw [graphErase_append, graphErase_of_find_none g a ha,
          graphErase_cons_head _ a _ ?keys]
      case keys =>
        intro p hp
        obtain ⟨id, hid, rfl⟩ := List.mem_map.mp hp
        exact fun he => hna (he ▸ hid)
    have hih := ih g hndr (fun id hid => h id (List.mem_cons_of_mem a hid))
    have hdec : decRefContext newUserContext
        = ({ socialUser := none, refCount := 0 } : xbox_social_user_context) := by
      simp [decRefContext, newUserContext, decU32_one]
    simp only [List.map_cons, removeLoop, hfind, Option.getD_some, hdec]
    simp only [if_true, ite_true]
    rw [hgs, herase]
    exact ⟨hih.1, hih.2⟩

theorem inactiveGraph_socialEventQueuePush (s : social_graph)
    (evt : internal_social_event) (t : social_event_type) (e : Nat) :
    (s.socialEventQueuePush evt t e).inactiveGraph = s.inactiveGraph := by
  unfold social_graph.socialEventQueuePush
  split
  · rfl
  · rfl

theorem inactiveGraph_setInactiveGraphFree (s : social_graph) (g : SocialUserGraph)
    (n : Nat) (hset : s.userBuffer.buffersSet = true) :
    (s.setInactiveGraphFree g n).inactiveGraph = g := by
  unfold social_graph.setInactiveGraphFree social_graph.updateInactive
    social_graph.inactiveGraph user_buffers_holder.inactiveBuffer?
  by_cases ha : s.userBuffer.activeIsA <;> simp [hset, ha]

/-- The graph map written by a fresh `UsersAdded(ids)` for disjoint ids. -/
theorem apply_users_added_disjoint (s : social_graph) (ids : List XUID) (t : Nat)
    (hset : s.userBuffer.buffersSet = true)
    (hnd : ids.Nodup)
    (hdisj : ∀ id ∈ ids, assocFind s.inactiveGraph id = none) :
    (s.apply_event (mkUsersAddedEvent ids t) true).inactiveGraph
      = s.inactiveGraph ++ ids.map (fun id => (id, newUserContext)) := by
  unfold social_graph.apply_event mkUsersAddedEvent
  rw [inactiveBuffer_some_of_set s hset]
  dsimp only
  rw [if_pos (rfl : true = true)]
  rw [inactiveGraph_socialEventQueuePush]
  unfold social_graph.apply_users_added_event
  dsimp only
  rw [addPhase1_all_absent ids s.inactiveGraph hdisj]
  dsimp only
  cases hids : ids with
  | nil =>
    simp only [List.isEmpty_nil, if_true, ite_true]
    rw [show ((s.setInactiveGraph s.inactiveGraph).resolveTce t 0).inactiveGraph
        = (s.setInactiveGraph s.inactiveGraph).inactiveGraph from rfl]
    rw [inactiveGraph_setInactiveGraph s _ hset]
    simp
  | cons a rest =>
    rw [← hids]
    have hne : ids.isEmpty = false := by rw [hids]; rfl
    rw [hne]
    simp only [Bool.false_eq_true, if_false]
    rw [insertNewUsers_append ids s.inactiveGraph hnd hdisj]
    split
    · rw [show ∀ (s1 : social_graph) (u : List XUID),
          (s1.fireRefreshTimer u).inactiveGraph = s1.inactiveGraph from fun _ _ => rfl]
      rw [show ∀ (s1 : social_graph) (n : Nat),
          ({ s1 with userAddedContext := n } : social_graph).inactiveGraph
            = s1.inactiveGraph from fun _ _ => rfl]
      exact inactiveGraph_setInactiveGraph s _ hset
    · rw [show ∀ (s1 : social_graph) (n : Nat),
          ({ s1 with userAddedContext := n } : social_graph).inactiveGraph
            = s1.inactiveGraph from fun _ _ => rfl]
      exact inactiveGraph_setInactiveGraph s _ hset

/-- C9: on a set of ids disjoint from the graph, each appearing once,
`UsersAdded(S)` inserts each id with an empty slot and `ref_count = 1`, and a
following `UsersRemoved(S)` (before any `UsersChanged` fills the slots)
erases each of them, returning the inactive buffer's graph map — every
`ref_count` included — to its pre-state. -/
theorem c9_add_remove_roundtrip (s : social_graph) (ids : List XUID) (t : Nat)
    (hset : s.userBuffer.buffersSet = true)
    (hnd : ids.Nodup)
    (hdisj : ∀ id ∈ ids, assocFind s.inactiveGraph id = none) :
    (s.apply_event (mkUsersAddedEvent ids t) true).inactiveGraph
        = s.inactiveGraph ++ ids.map (fun id => (id, newUserContext))
      ∧ ((s.apply_event (mkUsersAddedEvent ids t) true).apply_event
            (mkUsersRemovedEvent ids) true).inactiveGraph
          = s.inactiveGraph := by
  have h1 := apply_users_added_disjoint s ids t hset hnd hdisj
  refine ⟨h1, ?_⟩
  set s1 := s.apply_event (mkUsersAddedEvent ids t) true with hs1
  have hset1 : s1.userBuffer.buffersSet = true := by
    have := congrArg frame_view.buffersSet (frameView_apply_event s (mkUsersAddedEvent ids t) true)
    simp only [frameView] at this
    rw [← hs1] at this
    rw [this]
    exact hset
  unfold social_graph.apply_event mkUsersRemovedEvent
  rw [inactiveBuffer_some_of_set s1 hset1]
  dsimp only
  rw [if_pos (rfl : true = true)]
  rw [inactiveGraph_socialEventQueuePush]
  unfold social_graph.apply_users_removed_event
  dsimp only
  rw [h1]
  have hrl := removeLoop_roundtrip ids s.inactiveGraph hnd hdisj
  rw [hrl.1, hrl.2]
  rw [show ∀ (g : SocialUserGraph) (n : Nat), bufferRemoveLoop g n [] = (g, n) from
      fun _ _ => rfl]
  dsimp only
  rw [if_pos rfl]
  rw [show ∀ (s2 : social_graph) (u : List XUID),
      (s2.unsubscribe_users u).inactiveGraph = s2.inactiveGraph from fun _ _ => rfl]
  exact inactiveGraph_setInactiveGraphFree s1 _ _ hset1

/-- C9 witness: the round-trip evaluated on ids `[1, 2]` over the empty
graph. -/
theorem c9_add_remove_roundtrip_witness :
    (mkTestState []).userBuffer.buffersSet = true
      ∧ ([1, 2] : List XUID).Nodup
      ∧ (((mkTestState []).apply_event (mkUsersAddedEvent [1, 2] 0) true).apply_event
            (mkUsersRemovedEvent [1, 2]) true).inactiveGraph
          = (mkTestState []).inactiveGraph :=
  ⟨rfl, by decide,
   (c9_add_remove_roundtrip (mkTestState []) [1, 2] 0 rfl (by decide) (by decide)).2⟩

theorem addPhase1_snd : ∀ (ids : List XUID) (g : SocialUserGraph),
    (addPhase1 g ids).2 = ids.filter (fun id => (assocFind g id).isNone) := by
  intro ids
  induction ids with
  | nil => intro g; rfl
  | cons a rest ih =>
    intro g
    cases hfa : assocFind g a with
    | some c =>
      have hcongr : ∀ id ∈ rest,
          (assocFind (graphSet g a (incRefContext c)) id).isNone
            = (assocFind g id).isNone := by
        intro id _
        rw [assocFind_graphSet]
        by_cases hai : a = id
        · subst hai
          rw [if_pos rfl, hfa]
          rfl
        · rw [if_neg hai]
      have hstep : (addPhase1 g (a :: rest)).2
          = (addPhase1 (graphSet g a (incRefContext c)) rest).2 := by
        simp [addPhase1, hfa]
      rw [hstep, ih (graphSet g a (incRefContext c)), List.filter_congr hcongr,
          List.filter_cons]
      simp [hfa]
    | none =>
      simp only [addPhase1, hfa]
      rw [List.filter_cons]
      simp only [hfa, Option.isNone_none, if_true, ite_true]
      rw [ih g]

theorem addPhase1_find : ∀ (ids : List XUID), ids.Nodup → ∀ (g : SocialUserGraph) (id : XUID),
    assocFind (addPhase1 g ids).1 id
      = if id ∈ ids then (assocFind g id).map incRefContext else assocFind g id := by
  intro ids
  induction ids with
  | nil => intro _ g id; simp [addPhase1]
  | cons a rest ih =>
    intro hnd g id
    obtain ⟨hna, hndr⟩ := List.nodup_cons.mp hnd
    cases hfa : assocFind g a with
    | some c =>
      have hstep : (addPhase1 g (a :: rest)).1
          = (addPhase1 (graphSet g a (incRefContext c)) rest).1 := by
        simp [addPhase1, hfa]
      rw [hstep, ih hndr (graphSet g a (incRefContext c)) id, assocFind_graphSet]
      by_cases hai : a = id
      · subst hai
        have : a ∉ rest := hna
        simp [this, hfa]
      · have hmem : (id ∈ a :: rest) ↔ (id ∈ rest) := by
          constructor
          · intro hm
            rcases List.mem_cons.mp hm with he | hm2
            · exact absurd he.symm hai
            · exact hm2
          · exact List.mem_cons_of_mem a
        rw [if_neg hai]
        by_cases hm : id ∈ rest <;> simp [hm, hmem]
    | none =>
      have hstep : (addPhase1 g (a :: rest)).1 = (addPhase1 g rest).1 := by
        simp [addPhase1, hfa]
      rw [hstep, ih hndr g id]
      by_cases hai : a = id
      · subst hai
        have : a ∉ rest := hna
        simp [this, hfa]
      · have hmem : (id ∈ a :: rest) ↔ (id ∈ rest) := by
          constructor
          · intro hm
            rcases List.mem_cons.mp hm with he | hm2
            · exact absurd he.symm hai
            · exact hm2
          · exact List.mem_cons_of_mem a
        by_cases hm : id ∈ rest <;> simp [hm, hmem]

theorem insertNewUsers_find : ∀ (ids : List XUID) (g : SocialUserGraph) (id : XUID),
    assocFind (insertNewUsers g ids) id
      = if id ∈ ids then some newUserContext else assocFind g id := by
  intro ids
  induction ids with
  | nil => intro g id; simp [insertNewUsers]
  | cons a rest ih =>
    intro g id
    show assocFind (insertNewUsers (graphSet g a newUserContext) rest) id = _
    rw [ih (graphSet g a newUserContext) id, assocFind_graphSet]
    by_cases hm : id ∈ rest
    · simp [hm]
    · by_cases hai : a = id
      · subst hai
        simp [hm]
      · have : ¬ id ∈ a :: rest := by
          intro hc
          rcases List.mem_cons.mp hc with he | h2
          · exact hai he.symm
          · exact hm h2
        simp [hm, hai, this]

theorem removeLoop_find : ∀ (ids : List XUID), ids.Nodup →
    ∀ (g : SocialUserGraph) (id : XUID),
    assocFind (removeLoop g ids).1 id
      = if id ∈ ids then
          (if (decRefContext ((assocFind g id).getD {})).refCount = 0
              ∧ (decRefContext ((assocFind g id).getD {})).socialUser = none
           then none
           else some (decRefContext ((assocFind g id).getD {})))
        else assocFind g id := by
  intro ids
  induction ids with
  | nil => intro _ g id; simp [removeLoop]
  | cons a rest ih =>
    intro hnd g id
    obtain ⟨hna, hndr⟩ := List.nodup_cons.mp hnd
    have hmem : ¬ a = id → ((id ∈ a :: rest) ↔ (id ∈ rest)) := by
      intro hai
      constructor
      · intro hm
        rcases List.mem_cons.mp hm with he | hm2
        · exact absurd he.symm hai
        · exact hm2
      · exact List.mem_cons_of_mem a
    set c1 := decRefContext ((assocFind g a).getD {}) with hc1
    have hg1 : ∀ id2, assocFind (graphSet g a c1) id2
        = if a = id2 then some c1 else assocFind g id2 :=
      fun id2 => assocFind_graphSet g a c1 id2
    by_cases h0 : c1.refCount = 0
    · cases hsu : c1.socialUser with
      | some u =>
        have hstep : (removeLoop g (a :: rest)).1
            = (removeLoop (graphSet g a c1) rest).1 := by
          simp [removeLoop, ← hc1, h0, hsu]
        rw [hstep, ih hndr (graphSet g a c1) id]
        by_cases hai : a = id
        · subst hai
          rw [if_neg (fun hc => hna hc), hg1 a, if_pos rfl, if_pos (List.mem_cons_self a rest)]
          rw [if_neg ?hcond]
          case hcond =>
            intro hc
            rw [hsu] at hc
            exact Option.noConfusion hc.2
        · rw [hg1 id, if_neg hai]
          by_cases hm : id ∈ rest
          · simp [hm, hmem hai]
          · simp [hm, hmem hai]
      | none =>
        have hstep : (removeLoop g (a :: rest)).1
            = (removeLoop (graphErase (graphSet g a c1) a) rest).1 := by
          simp [removeLoop, ← hc1, h0, hsu]
        have hg2 : ∀ id2, assocFind (graphErase (graphSet g a c1) a) id2
            = if a = id2 then none else assocFind g id2 := by
          intro id2
          rw [assocFind_graphErase, hg1 id2]
          by_cases hai : a = id2 <;> simp [hai]
        rw [hstep, ih hndr (graphErase (graphSet g a c1) a) id]
        by_cases hai : a = id
        · subst hai
          rw [if_neg (fun hc => hna hc), hg2 a, if_pos rfl, if_pos (List.mem_cons_self a rest)]
          rw [if_pos ⟨h0, hsu⟩]
        · rw [hg2 id, if_neg hai]
          by_cases hm : id ∈ rest
          · simp [hm, hmem hai]
          · simp [hm, hmem hai]
    · have hstep : (removeLoop g (a :: rest)).1
          = (removeLoop (graphSet g a c1) rest).1 := by
        simp [removeLoop, ← hc1, h0]
      rw [hstep, ih hndr (graphSet g a c1) id]
      by_cases hai : a = id
      · subst hai
        rw [if_neg (fun hc => hna hc), hg1 a, if_pos rfl, if_pos (List.mem_cons_self a rest)]
        rw [if_neg (fun hc => h0 hc.1)]
      · rw [hg1 id, if_neg hai]
        by_cases hm : id ∈ rest
        · simp [hm, hmem hai]
        · simp [hm, hmem hai]

/-- The predicate deciding whether `apply_users_removed_event` sends an id to
`removeUsers`: its decremented `refCount` hit `0` while the slot still holds
a user. -/
def removeCollects (g : SocialUserGraph) (id : XUID) : Bool :=
  decide ((decRefContext ((assocFind g id).getD {})).refCount = 0)
    && ((decRefContext ((assocFind g id).getD {})).socialUser).isSome

theorem removeLoop_removeUsers : ∀ (ids : List XUID), ids.Nodup →
    ∀ (g : SocialUserGraph),
    (removeLoop g ids).2.1 = ids.filter (removeCollects g) := by
  intro ids
  induction ids with
  | nil => intro _ g; rfl
  | cons a rest ih =>
    intro hnd g
    obtain ⟨hna, hndr⟩ := List.nodup_cons.mp hnd
    set c1 := decRefContext ((assocFind g a).getD {}) with hc1
    have hg1 : ∀ id2, ¬ a = id2 → assocFind (graphSet g a c1) id2 = assocFind g id2 := by
      intro id2 hai
      rw [assocFind_graphSet, if_neg hai]
    have hcongr1 : ∀ id ∈ rest, removeCollects (graphSet g a c1) id = removeCollects g id := by
      intro id hid
      have hai : ¬ a = id := fun he => hna (he ▸ hid)
      simp only [removeCollects, hg1 id hai]
    by_cases h0 : c1.refCount = 0
    · cases hsu : c1.socialUser with
      | some u =>
        have hstep : (removeLoop g (a :: rest)).2.1
            = a :: (removeLoop (graphSet g a c1) rest).2.1 := by
          simp [removeLoop, ← hc1, h0, hsu]
        have hcoll : removeCollects g a = true := by
          simp only [removeCollects, ← hc1, h0, hsu]
          simp
        rw [hstep, ih hndr (graphSet g a c1), List.filter_congr hcongr1,
            List.filter_cons, hcoll]
        simp
      | none =>
        have hg2 : ∀ id2, ¬ a = id2 →
            assocFind (graphErase (graphSet g a c1) a) id2 = assocFind g id2 := by
          intro id2 hai
          rw [assocFind_graphErase, if_neg hai, hg1 id2 hai]
        have hcongr2 : ∀ id ∈ rest,
            removeCollects (graphErase (graphSet g a c1) a) id = removeCollects g id := by
          intro id hid
          have hai : ¬ a = id := fun he => hna (he ▸ hid)
          simp only [removeCollects, hg2 id hai]
        have hstep : (removeLoop g (a :: rest)).2.1
            = (removeLoop (graphErase (graphSet g a c1) a) rest).2.1 := by
          simp [removeLoop, ← hc1, h0, hsu]
        have hcoll : removeCollects g a = false := by
          simp only [removeCollects, ← hc1, h0, hsu]
          simp
        rw [hstep, ih hndr (graphErase (graphSet g a c1) a), List.filter_congr hcongr2,
            List.filter_cons, hcoll]
        simp
    · have hstep : (removeLoop g (a :: rest)).2.1
          = (removeLoop (graphSet g a c1) rest).2.1 := by
        simp [removeLoop, ← hc1, h0]
      have hcoll : removeCollects g a = false := by
        simp only [removeCollects, ← hc1]
        simp [h0]
      rw [hstep, ih hndr (graphSet g a c1), List.filter_congr hcongr1,
          List.filter_cons, hcoll]
      simp

theorem bufferRemoveLoop_find : ∀ (ids : List XUID) (g : SocialUserGraph)
    (free : Nat) (id : XUID),
    assocFind (bufferRemoveLoop g free ids).1 id
      = if id ∈ ids then none else assocFind g id := by
  intro ids
  induction ids with
  | nil => intro g free id; simp [bufferRemoveLoop]
  | cons a rest ih =>
    intro g free id
    have hmem : ¬ a = id → ((id ∈ a :: rest) ↔ (id ∈ rest)) := by
      intro hai
      constructor
      · intro hm
        rcases List.mem_cons.mp hm with he | hm2
        · exact absurd he.symm hai
        · exact hm2
      · exact List.mem_cons_of_mem a
    cases hfa : assocFind g a with
    | some c =>
      have hstep : (bufferRemoveLoop g free (a :: rest)).1
          = (bufferRemoveLoop (graphErase g a) (free + 1) rest).1 := by
        simp [bufferRemoveLoop, hfa]
      rw [hstep, ih (graphErase g a) (free + 1) id, assocFind_graphErase]
      by_cases hai : a = id
      · subst hai
        simp [List.mem_cons_self]
      · rw [if_neg hai]
        by_cases hm : id ∈ rest <;> simp [hm, hmem hai]
    | none =>
      have hstep : (bufferRemoveLoop g free (a :: rest)).1
          = (bufferRemoveLoop g free rest).1 := by
        simp [bufferRemoveLoop, hfa]
      rw [hstep, ih g free id]
      by_cases hai : a = id
      · subst hai
        simp [List.mem_cons_self, hfa]
      · by_cases hm : id ∈ rest <;> simp [hm, hmem hai]

/-- Pointwise effect of a fresh `UsersAdded(ids)` on the inactive buffer's
map: a present id is re-referenced (`refCount` incremented modulo `2^32`), an
absent id gets a fresh empty-slot entry with `refCount = 1`, and other ids
are untouched. -/
theorem usersAdded_find_state (s : social_graph) (ids : List XUID) (t : Nat)
    (hset : s.userBuffer.buffersSet = true) (hnd : ids.Nodup) (id : XUID) :
    assocFind (s.apply_event (mkUsersAddedEvent ids t) true).inactiveGraph id
      = if id ∈ ids then
          (match assocFind s.inactiveGraph id with
           | some c => some (incRefContext c)
           | none => some newUserContext)
        else assocFind s.inactiveGraph id := by
  unfold social_graph.apply_event mkUsersAddedEvent
  rw [inactiveBuffer_some_of_set s hset]
  dsimp only
  rw [if_pos (rfl : true = true)]
  rw [inactiveGraph_socialEventQueuePush]
  unfold social_graph.apply_users_added_event
  dsimp only
  by_cases hemp : (addPhase1 s.inactiveGraph ids).2.isEmpty = true
  · rw [if_pos hemp]
    rw [show ∀ (s1 : social_graph) (a b : Nat),
        (s1.resolveTce a b).inactiveGraph = s1.inactiveGraph from fun _ _ _ => rfl]
    rw [inactiveGraph_setInactiveGraph s _ hset]
    rw [addPhase1_find ids hnd s.inactiveGraph id]
    by_cases hm : id ∈ ids
    · rw [if_pos hm, if_pos hm]
      have hfilter : (addPhase1 s.inactiveGraph ids).2 = [] := by
        rwa [List.isEmpty_iff] at hemp
      rw [addPhase1_snd ids s.inactiveGraph] at hfilter
      have hnone : ¬ (assocFind s.inactiveGraph id).isNone = true := by
        intro hcontra
        have : id ∈ List.filter (fun id => (assocFind s.inactiveGraph id).isNone) ids :=
          List.mem_filter.mpr ⟨hm, hcontra⟩
        rw [hfilter] at this
        exact absurd this (List.not_mem_nil id)
      cases hfa : assocFind s.inactiveGraph id with
      | some c => rfl
      | none => rw [hfa] at hnone; simp at hnone
    · rw [if_neg hm, if_neg hm]
  · rw [if_neg hemp]
    rw [if_pos (rfl : true = true)]
    rw [show ∀ (s1 : social_graph) (u : List XUID),
        (s1.fireRefreshTimer u).inactiveGraph = s1.inactiveGraph from fun _ _ => rfl]
    rw [show ∀ (s1 : social_graph) (n : Nat),
        ({ s1 with userAddedContext := n } : social_graph).inactiveGraph
          = s1.inactiveGraph from fun _ _ => rfl]
    rw [inactiveGraph_setInactiveGraph s _ hset]
    rw [insertNewUsers_find, addPhase1_find ids hnd s.inactiveGraph id,
        addPhase1_snd ids s.inactiveGraph]
    by_cases hm : id ∈ ids
    · rw [if_pos hm, if_pos hm]
      cases hfa : assocFind s.inactiveGraph id with
      | some c =>
        have hnotin : ¬ id ∈ List.filter
            (fun id => (assocFind s.inactiveGraph id).isNone) ids := by
          intro hcontra
          have := (List.mem_filter.mp hcontra).2
          rw [hfa] at this
          simp at this
        rw [if_neg hnotin]
        rfl
      | none =>
        have hin : id ∈ List.filter
            (fun id => (assocFind s.inactiveGraph id).isNone) ids :=
          List.mem_filter.mpr ⟨hm, by rw [hfa]; rfl⟩
        rw [if_pos hin]
    · have hnotin : ¬ id ∈ List.filter
          (fun id => (assocFind s.inactiveGraph id).isNone) ids := by
        intro hcontra
        exact hm (List.mem_filter.mp hcontra).1
      rw [if_neg hm, if_neg hnotin, if_neg hm]

/-- Pointwise effect of a fresh `UsersRemoved(ids)` on the inactive buffer's
map: each listed id has its `refCount` decremented through `operator[]`
(wrapping `0` to `2^32 - 1` for an untracked id); an id whose decremented
count is `0` ends up erased (directly when its slot was empty, via
`remove_users_from_buffer` when it held a user); other ids are untouched. -/
theorem usersRemoved_find_state (s : social_graph) (ids : List XUID)
    (hset : s.userBuffer.buffersSet = true) (hnd : ids.Nodup) (id : XUID) :
    assocFind (s.apply_event (mkUsersRemovedEvent ids) true).inactiveGraph id
      = if id ∈ ids then
          (if (decRefContext ((assocFind s.inactiveGraph id).getD {})).refCount = 0
           then none
           else some (decRefContext ((assocFind s.inactiveGraph id).getD {})))
        else assocFind s.inactiveGraph id := by
  unfold social_graph.apply_event mkUsersRemovedEvent
  rw [inactiveBuffer_some_of_set s hset]
  dsimp only
  rw [if_pos (rfl : true = true)]
  rw [inactiveGraph_socialEventQueuePush]
  unfold social_graph.apply_users_removed_event
  dsimp only
  rw [if_pos (rfl : true = true)]
  rw [show ∀ (s2 : social_graph) (u : List XUID),
      (s2.unsubscribe_users u).inactiveGraph = s2.inactiveGraph from fun _ _ => rfl]
  rw [inactiveGraph_setInactiveGraphFree s _ _ hset]
  rw [bufferRemoveLoop_find, removeLoop_removeUsers ids hnd s.inactiveGraph,
      removeLoop_find ids hnd s.inactiveGraph id]
  by_cases hm : id ∈ ids
  · rw [if_pos hm, if_pos hm]
    set c1 := decRefContext ((assocFind s.inactiveGraph id).getD {}) with hc1
    by_cases h0 : c1.refCount = 0
    · rw [if_pos h0]
      cases hsu : c1.socialUser with
      | some u =>
        have hin : id ∈ List.filter (removeCollects s.inactiveGraph) ids := by
          refine List.mem_filter.mpr ⟨hm, ?_⟩
          simp only [removeCollects, ← hc1, h0, hsu]
          simp
        rw [if_pos hin]
      | none =>
        have hnotin : ¬ id ∈ List.filter (removeCollects s.inactiveGraph) ids := by
          intro hcontra
          have := (List.mem_filter.mp hcontra).2
          simp only [removeCollects, ← hc1, hsu] at this
          simp at this
        rw [if_neg hnotin, if_pos ⟨h0, rfl⟩]
    · rw [if_neg h0]
      have hnotin : ¬ id ∈ List.filter (removeCollects s.inactiveGraph) ids := by
        intro hcontra
        have := (List.mem_filter.mp hcontra).2
        simp only [removeCollects, ← hc1] at this
        rw [Bool.and_eq_true] at this
        exact h0 (of_decide_eq_true this.1)
      rw [if_neg hnotin, if_neg (fun hc => h0 hc.1)]
  · have hnotin : ¬ id ∈ List.filter (removeCollects s.inactiveGraph) ids := by
      intro hcontra
      exact hm (List.mem_filter.mp hcontra).1
    rw [if_neg hm, if_neg hnotin, if_neg hm]

theorem incU32_eq {r : Nat} (h : r + 1 < UINT32_MOD) : incU32 r = r + 1 := by
  simp only [incU32, UINT32_MOD] at *
  omega

theorem decU32_eq {r : Nat} (h1 : 1 ≤ r) (h2 : r < UINT32_MOD) : decU32 r = r - 1 := by
  simp only [decU32, UINT32_MOD] at *
  omega

/-- An `add_users` or `remove_users` call, as pushed onto the internal event
queue and applied FIFO by the worker. -/
inductive CoreOp where
  | addUsers (ids : List XUID) (tceId : Nat)
  | removeUsers (ids : List XUID)
deriving DecidableEq

/-- The id set carried by the call. -/
def CoreOp.idList : CoreOp → List XUID
  | .addUsers ids _ => ids
  | .removeUsers ids => ids

/-- Applies the internal event corresponding to one call, fresh, as the
worker does. -/
def applyOp (s : social_graph) : CoreOp → social_graph
  | .addUsers ids t => s.apply_event (mkUsersAddedEvent ids t) true
  | .removeUsers ids => s.apply_event (mkUsersRemovedEvent ids) true

/-- Runs a FIFO history of `add_users` / `remove_users` calls through the
event-application pipeline. -/
def runOps (s : social_graph) (ops : List CoreOp) : social_graph :=
  ops.foldl applyOp s

def isAddContaining (id : XUID) : CoreOp → Bool
  | .addUsers ids _ => decide (id ∈ ids)
  | .removeUsers _ => false

def isRemoveContaining (id : XUID) : CoreOp → Bool
  | .addUsers _ _ => false
  | .removeUsers ids => decide (id ∈ ids)

/-- Number of `add_users` calls in the history whose id set contains `id`. -/
def countAdds (id : XUID) (ops : List CoreOp) : Nat :=
  ops.countP (isAddContaining id)

/-- Number of `remove_users` calls in the history whose id set contains
`id`. -/
def countRemoves (id : XUID) (ops : List CoreOp) : Nat :=
  ops.countP (isRemoveContaining id)

/-- All ids mentioned anywhere in the history. -/
def opsAllIds : List CoreOp → List XUID
  | [] => []
  | op :: rest => op.idList ++ opsAllIds rest

/-- Each call's id list has no duplicate ids (the claim speaks of id-sets). -/
def opsNodup (ops : List CoreOp) : Prop := ∀ op ∈ ops, op.idList.Nodup

/-- In every initial segment of the history, no id has more removes than
adds. -/
def noExcessRemoves (ops : List CoreOp) : Prop :=
  ∀ n ∈ List.range (ops.length + 1), ∀ id ∈ opsAllIds ops,
    countRemoves id (ops.take n) ≤ countAdds id (ops.take n)

theorem countAdds_cons (id : XUID) (op : CoreOp) (rest : List CoreOp) :
    countAdds id (op :: rest)
      = countAdds id rest + (if isAddContaining id op then 1 else 0) := by
  simp [countAdds, List.countP_cons]

theorem countRemoves_cons (id : XUID) (op : CoreOp) (rest : List CoreOp) :
    countRemoves id (op :: rest)
      = countRemoves id rest + (if isRemoveContaining id op then 1 else 0) := by
  simp [countRemoves, List.countP_cons]

theorem mem_opsAllIds {id : XUID} {op : CoreOp} : ∀ {ops : List CoreOp},
    op ∈ ops → id ∈ op.idList → id ∈ opsAllIds ops := by
  intro ops
  induction ops with
  | nil => intro h; exact absurd h (List.not_mem_nil op)
  | cons a rest ih =>
    intro hmem hid
    rcases List.mem_cons.mp hmem with he | hm
    · subst he
      exact List.mem_append.mpr (Or.inl hid)
    · exact List.mem_append.mpr (Or.inr (ih hm hid))

theorem counts_zero_of_not_mem {id : XUID} {ops : List CoreOp}
    (h : id ∉ opsAllIds ops) (l : List CoreOp) (hsub : ∀ op ∈ l, op ∈ ops) :
    countAdds id l = 0 ∧ countRemoves id l = 0 := by
  constructor
  · refine List.countP_eq_zero.mpr (fun op hop => ?_)
    intro hp
    cases op with
    | addUsers ids t =>
      have : id ∈ ids := of_decide_eq_true hp
      exact h (mem_opsAllIds (hsub _ hop) this)
    | removeUsers ids => exact Bool.noConfusion hp
  · refine List.countP_eq_zero.mpr (fun op hop => ?_)
    intro hp
    cases op with
    | addUsers ids t => exact Bool.noConfusion hp
    | removeUsers ids =>
      have : id ∈ ids := of_decide_eq_true hp
      exact h (mem_opsAllIds (hsub _ hop) this)

theorem buffersSet_applyOp (s : social_graph) (op : CoreOp) :
    (applyOp s op).userBuffer.buffersSet = s.userBuffer.buffersSet := by
  cases op with
  | addUsers ids t =>
    have := congrArg frame_view.buffersSet
      (frameView_apply_event s (mkUsersAddedEvent ids t) true)
    simpa [frameView, applyOp] using this
  | removeUsers ids =>
    have := congrArg frame_view.buffersSet
      (frameView_apply_event s (mkUsersRemovedEvent ids) true)
    simpa [frameView, applyOp] using this

/-- The per-id reference-count invariant: a tracked id's stored `refCount`
makes up the difference between its add count `A` and remove count `R` (and
is positive); an untracked id has balanced counts. -/
def RefInv (g : SocialUserGraph) (A R : XUID → Nat) : Prop :=
  ∀ id, (∀ c, assocFind g id = some c →
        c.refCount + R id = A id ∧ R id < A id)
      ∧ (assocFind g id = none → A id = R id)

theorem countAdds_cons_add (id : XUID) (l : List XUID) (t : Nat)
    (rest : List CoreOp) :
    countAdds id (CoreOp.addUsers l t :: rest)
      = countAdds id rest + (if id ∈ l then 1 else 0) := by
  simp [countAdds, List.countP_cons, isAddContaining]

theorem countAdds_cons_remove (id : XUID) (l : List XUID) (rest : List CoreOp) :
    countAdds id (CoreOp.removeUsers l :: rest) = countAdds id rest := by
  simp [countAdds, List.countP_cons, isAddContaining]

theorem countRemoves_cons_add (id : XUID) (l : List XUID) (t : Nat)
    (rest : List CoreOp) :
    countRemoves id (CoreOp.addUsers l t :: rest) = countRemoves id rest := by
  simp [countRemoves, List.countP_cons, isRemoveContaining]

theorem countRemoves_cons_remove (id : XUID) (l : List XUID)
    (rest : List CoreOp) :
    countRemoves id (CoreOp.removeUsers l :: rest)
      = countRemoves id rest + (if id ∈ l then 1 else 0) := by
  simp [countRemoves, List.countP_cons, isRemoveContaining]

/-- One fresh `users_added` event moves the invariant from `(A, R)` to
`(A + 1 on the event's ids, R)`. -/
theorem refInv_step_add (s : social_graph) (l : List XUID) (t : Nat)
    (A R : XUID → Nat) (hset : s.userBuffer.buffersSet = true)
    (hnd : l.Nodup) (hb : ∀ id ∈ l, A id + 1 < UINT32_MOD)
    (hinv : RefInv s.inactiveGraph A R) :
    RefInv (s.apply_event (mkUsersAddedEvent l t) true).inactiveGraph
      (fun id => A id + (if id ∈ l then 1 else 0)) R := by
  intro id
  dsimp only
  have hfind := usersAdded_find_state s l t hset hnd id
  by_cases hm : id ∈ l
  · rw [if_pos hm] at hfind
    cases hfa : assocFind s.inactiveGraph id with
    | some c =>
      rw [hfa] at hfind
      obtain ⟨hb1, hb2⟩ := (hinv id).1 c hfa
      have hlt : c.refCount + 1 < UINT32_MOD := by
        have := hb id hm
        omega
      refine ⟨?_, ?_⟩
      · intro c' hc'
        rw [hfind] at hc'
        cases Option.some.inj hc'
        have hru : (incRefContext c).refCount = c.refCount + 1 := incU32_eq hlt
        rw [hru, if_pos hm]
        exact ⟨by omega, by omega⟩
      · intro hc'
        rw [hfind] at hc'
        exact Option.noConfusion hc'
    | none =>
      rw [hfa] at hfind
      have hbase := (hinv id).2 hfa
      refine ⟨?_, ?_⟩
      · intro c' hc'
        rw [hfind] at hc'
        cases Option.some.inj hc'
        rw [if_pos hm]
        exact ⟨by simp [newUserContext]; omega, by omega⟩
      · intro hc'
        rw [hfind] at hc'
        exact Option.noConfusion hc'
  · rw [if_neg hm] at hfind
    refine ⟨?_, ?_⟩
    · intro c hc
      rw [hfind] at hc
      obtain ⟨h1, h2⟩ := (hinv id).1 c hc
      rw [if_neg hm]
      exact ⟨by omega, by omega⟩
    · intro hc
      rw [hfind] at hc
      have := (hinv id).2 hc
      rw [if_neg hm]
      omega

/-- One fresh `users_removed` event moves the invariant from `(A, R)` to
`(A, R + 1 on the event's ids)`, provided each removed id still has a
remove budget. -/
theorem refInv_step_remove (s : social_graph) (l : List XUID)
    (A R : XUID → Nat) (hset : s.userBuffer.buffersSet = true)
    (hnd : l.Nodup) (hb : ∀ id, A id < UINT32_MOD)
    (hleg : ∀ id ∈ l, R id + 1 ≤ A id)
    (hinv : RefInv s.inactiveGraph A R) :
    RefInv (s.apply_event (mkUsersRemovedEvent l) true).inactiveGraph
      A (fun id => R id + (if id ∈ l then 1 else 0)) := by
  intro id
  dsimp only
  have hfind := usersRemoved_find_state s l hset hnd id
  by_cases hm : id ∈ l
  · rw [if_pos hm] at hfind
    cases hfa : assocFind s.inactiveGraph id with
    | none =>
      exfalso
      have hbase := (hinv id).2 hfa
      have := hleg id hm
      omega
    | some c =>
      rw [hfa] at hfind
      simp only [Option.getD_some] at hfind
      obtain ⟨hb1, hb2⟩ := (hinv id).1 c hfa
      have h1 : 1 ≤ c.refCount := by omega
      have h2 : c.refCount < UINT32_MOD := by
        have := hb id
        omega
      have hdu : (decRefContext c).refCount = c.refCount - 1 := decU32_eq h1 h2
      rw [hdu] at hfind
      by_cases hz : c.refCount - 1 = 0
      · rw [if_pos hz] at hfind
        refine ⟨?_, ?_⟩
        · intro c' hc'
          rw [hfind] at hc'
          exact Option.noConfusion hc'
        · intro _
          rw [if_pos hm]
          omega
      · rw [if_neg hz] at hfind
        refine ⟨?_, ?_⟩
        · intro c' hc'
          rw [hfind] at hc'
          cases Option.some.inj hc'
          rw [hdu, if_pos hm]
          exact ⟨by omega, by omega⟩
        · intro hc'
          rw [hfind] at hc'
          exact Option.noConfusion hc'
  · rw [if_neg hm] at hfind
    refine ⟨?_, ?_⟩
    · intro c hc
      rw [hfind] at hc
      obtain ⟨ha, hb2⟩ := (hinv id).1 c hc
      rw [if_neg hm]
      exact ⟨by omega, by omega⟩
    · intro hc
      rw [hfind] at hc
      have := (hinv id).2 hc
      rw [if_neg hm]
      omega

/-- The reference-count invariant is preserved along any history of
`add_users` / `remove_users` calls, with the counts shifted by the
history's per-id add and remove counts. -/
theorem runOps_refInv : ∀ (ops : List CoreOp) (s : social_graph)
    (A R : XUID → Nat),
    s.userBuffer.buffersSet = true →
    opsNodup ops →
    (∀ id, A id + countAdds id ops < UINT32_MOD) →
    (∀ n id, R id + countRemoves id (ops.take n)
        ≤ A id + countAdds id (ops.take n)) →
    RefInv s.inactiveGraph A R →
    RefInv (runOps s ops).inactiveGraph
      (fun id => A id + countAdds id ops)
      (fun id => R id + countRemoves id ops) := by
  intro ops
  induction ops with
  | nil =>
    intro s A R hset hnd hbound hexc hinv
    intro id
    dsimp only
    refine ⟨?_, ?_⟩
    · intro c hc
      obtain ⟨h1, h2⟩ := (hinv id).1 c hc
      simp only [countAdds, countRemoves, List.countP_nil]
      exact ⟨by omega, by omega⟩
    · intro hc
      have := (hinv id).2 hc
      simp only [countAdds, countRemoves, List.countP_nil]
      omega
  | cons op rest ih =>
    intro s A R hset hnd hbound hexc hinv
    have hndop : op.idList.Nodup := hnd op (List.mem_cons_self op rest)
    have hndrest : opsNodup rest := fun o ho => hnd o (List.mem_cons_of_mem op ho)
    cases op with
    | addUsers l t =>
      have hstep := refInv_step_add s l t A R hset hndop ?hb hinv
      case hb =>
        intro id hm
        have hb2 := hbound id
        rw [countAdds_cons_add, if_pos hm] at hb2
        omega
      have hset' :
          (s.apply_event (mkUsersAddedEvent l t) true).userBuffer.buffersSet
            = true :=
        (buffersSet_applyOp s (CoreOp.addUsers l t)).trans hset
      have hih := ih (s.apply_event (mkUsersAddedEvent l t) true)
          (fun id => A id + (if id ∈ l then 1 else 0)) R
          hset' hndrest ?bound2 ?exc2 hstep
      case bound2 =>
        intro id
        have hb2 := hbound id
        rw [countAdds_cons_add] at hb2
        dsimp only
        omega
      case exc2 =>
        intro n id
        dsimp only
        have he := hexc (n + 1) id
        rw [List.take_succ_cons, countAdds_cons_add, countRemoves_cons_add] at he
        omega
      intro id
      dsimp only
      have h := hih id
      dsimp only at h
      rw [countAdds_cons_add, countRemoves_cons_add]
      refine ⟨?_, ?_⟩
      · intro c hc
        obtain ⟨h1, h2⟩ := h.1 c hc
        exact ⟨by omega, by omega⟩
      · intro hc
        have := h.2 hc
        omega
    | removeUsers l =>
      have hstep := refInv_step_remove s l A R hset hndop ?hb ?hleg hinv
      case hb =>
        intro id
        have hb2 := hbound id
        omega
      case hleg =>
        intro id hm
        have he := hexc 1 id
        rw [List.take_succ_cons, List.take_zero, countAdds_cons_remove,
          countRemoves_cons_remove, if_pos hm] at he
        simp only [countAdds, countRemoves, List.countP_nil] at he
        omega
      have hset' :
          (s.apply_event (mkUsersRemovedEvent l) true).userBuffer.buffersSet
            = true :=
        (buffersSet_applyOp s (CoreOp.removeUsers l)).trans hset
      have hih := ih (s.apply_event (mkUsersRemovedEvent l) true)
          A (fun id => R id + (if id ∈ l then 1 else 0))
          hset' hndrest ?bound2 ?exc2 hstep
      case bound2 =>
        intro id
        have hb2 := hbound id
        rw [countAdds_cons_remove] at hb2
        omega
      case exc2 =>
        intro n id
        dsimp only
        have he := hexc (n + 1) id
        rw [List.take_succ_cons, countAdds_cons_remove,
          countRemoves_cons_remove] at he
        omega
      intro id
      dsimp only
      have h := hih id
      dsimp only at h
      rw [countAdds_cons_remove, countRemoves_cons_remove]
      refine ⟨?_, ?_⟩
      · intro c hc
        obtain ⟨h1, h2⟩ := h.1 c hc
        exact ⟨by omega, by omega⟩
      · intro hc
        have := h.2 hc
        omega

/-- The claim's reading: across any call history, a tracked id's stored
`refCount` equals its add count minus its remove count clamped at zero
(`Nat` subtraction is the clamped difference), with no further proviso. -/
def claimC3Statement : Prop :=
  ∀ (ops : List CoreOp) (id : XUID) (c : xbox_social_user_context),
    assocFind (runOps (mkTestState []) ops).inactiveGraph id = some c →
    c.refCount = countAdds id ops - countRemoves id ops

/-- A single `remove_users([1])` on an empty graph drives the stored
`refCount` to `2^32 - 1` through unsigned wrap-around — `operator[]`
default-constructs the entry and the decrement underflows — while the
claimed clamped difference is `0`. -/
theorem c3_refcount_counterexample : ¬ claimC3Statement := by
  intro h
  have h2 := h [CoreOp.removeUsers [1]] 1
    { socialUser := none, refCount := 4294967295 } (by rfl)
  exact absurd h2 (by decide)

/-- C3 (amended): along any history of `add_users` / `remove_users` calls
in which every call's id list is duplicate-free, no prefix removes an id
more often than it was added, and the history is shorter than `2^32`, each
tracked id's stored `refCount` is exactly its add count minus its remove
count (stated additively, so the difference is positive), and an id is
absent from the graph map exactly when the two counts balance. The claim's
unconditional clamp-at-zero reading is refuted by
the wrap-around counterexample. -/
theorem c3_refcount_invariant (ops : List CoreOp)
    (hnd : opsNodup ops) (hexc : noExcessRemoves ops)
    (hlen : ops.length < UINT32_MOD) (id : XUID) :
    (∀ c, assocFind (runOps (mkTestState []) ops).inactiveGraph id = some c →
        c.refCount + countRemoves id ops = countAdds id ops
          ∧ countRemoves id ops < countAdds id ops)
      ∧ (assocFind (runOps (mkTestState []) ops).inactiveGraph id = none →
          countAdds id ops = countRemoves id ops) := by
  have hset : (mkTestState ([] : SocialUserGraph)).userBuffer.buffersSet = true := rfl
  have hbound : ∀ i, (fun _ : XUID => 0) i + countAdds i ops < UINT32_MOD := by
    intro i
    have hle : countAdds i ops ≤ ops.length :=
      List.countP_le_length (isAddContaining i)
    simp only
    omega
  have hexc2 : ∀ n i, (fun _ : XUID => 0) i + countRemoves i (ops.take n)
      ≤ (fun _ : XUID => 0) i + countAdds i (ops.take n) := by
    intro n i
    simp only
    by_cases hid : i ∈ opsAllIds ops
    · by_cases hn : n ≤ ops.length
      · have := hexc n (List.mem_range.mpr (by omega)) i hid
        omega
      · have htake : ops.take n = ops := List.take_of_length_le (by omega)
        have h2 := hexc ops.length (List.mem_range.mpr (by omega)) i hid
        rw [List.take_of_length_le (Nat.le_refl _)] at h2
        rw [htake]
        omega
    · have hz := counts_zero_of_not_mem hid (ops.take n)
        (fun op hop => List.mem_of_mem_take hop)
      omega
  have hinv0 : RefInv (mkTestState ([] : SocialUserGraph)).inactiveGraph
      (fun _ => 0) (fun _ => 0) := by
    intro i
    refine ⟨?_, fun _ => rfl⟩
    intro c hc
    exact Option.noConfusion hc
  have hmain := runOps_refInv ops (mkTestState []) (fun _ => 0) (fun _ => 0)
      hset hnd hbound hexc2 hinv0
  have h := hmain id
  dsimp only at h
  refine ⟨?_, ?_⟩
  · intro c hc
    obtain ⟨h1, h2⟩ := h.1 c hc
    exact ⟨by omega, by omega⟩
  · intro hc
    have := h.2 hc
    omega

def opsW : List CoreOp :=
  [CoreOp.addUsers [1, 2] 0, CoreOp.addUsers [1] 1, CoreOp.removeUsers [1, 2]]

theorem c3_refcount_invariant_witness :
    (∀ c, assocFind (runOps (mkTestState []) opsW).inactiveGraph 1 = some c →
        c.refCount + countRemoves 1 opsW = countAdds 1 opsW
          ∧ countRemoves 1 opsW < countAdds 1 opsW)
      ∧ (assocFind (runOps (mkTestState []) opsW).inactiveGraph 1 = none →
          countAdds 1 opsW = countRemoves 1 opsW) :=
  c3_refcount_invariant opsW (by unfold opsNodup; decide)
    (by unfold noExcessRemoves; decide) (by decide) 1

end XsapiSocialManager
